import Mathlib

/-!
Shallow embedding of the `url-pattern-list` library (`src/index.ts` and its
collaborators) and proofs about its prefix-tree index.

JavaScript strings are modelled as `List Char` (URL inputs are ASCII, so JS
UTF-16 lengths and Lean character counts agree on every input we consider).
The external URL-pattern engine (`URLPattern.test` / `URLPattern.exec`), the
URL resolver (`new URL`) and the compiled regexes of regex nodes are opaque
collaborators of the core; they are passed in as function parameters, exactly
as the spec's §1 and §6 treat them.
-/

namespace UrlPatternList

/-- URL component ordering, `URLComponentType` in `lib/parse-pattern.ts`
(the full-URL variant used by `index.ts`); the enum is numeric and ordered
Protocol < Username < Password < Hostname < Port < Pathname < Search < Hash. -/
inductive UrlComponentType where
  | protocol
  | username
  | password
  | hostname
  | port
  | pathname
  | search
  | hash
deriving DecidableEq, Repr

/-- The numeric value of the TS enum, used for `<` / `>` comparisons. -/
def UrlComponentType.toNat : UrlComponentType → Nat
  | .protocol => 0
  | .username => 1
  | .password => 2
  | .hostname => 3
  | .port => 4
  | .pathname => 5
  | .search => 6
  | .hash => 7

/-- `Modifier` from `lib/parse-pattern.ts`. -/
inductive Modifier where
  | none
  | optional
  | zeroOrMore
  | oneOrMore
deriving DecidableEq, Repr

/-- `PartType` from `lib/parse-pattern.ts`. -/
inductive PartType where
  | fixed
  | segmentWildcard
  | fullWildcard
  | regex
deriving DecidableEq, Repr

/-- A parsed pattern part (`Part` in `lib/parse-pattern.ts`, extended with the
URL component tag that `parseFullURL` attaches for `index.ts`).  The capture
name is carried but ignored by all tree structure decisions. -/
structure Part where
  type : PartType
  urlComponentType : UrlComponentType
  name : String
  pfx : List Char
  value : List Char
  suffix : List Char
  modifier : Modifier
deriving DecidableEq, Repr

/-- `URLPatternListItem` from `index.ts`: sequence number, an opaque handle to
the compiled `URLPattern` (modelled as a `Nat` key into the external
evaluator), and the associated payload. -/
structure Item (T : Type) where
  sequence : Nat
  pattern : Nat
  value : T
deriving DecidableEq, Repr

/-- `Number.MAX_SAFE_INTEGER`, the initial `minSequence` of a fresh node. -/
def maxSafeInteger : Nat := 2 ^ 53 - 1

/-- The part-kind-specific data of a prefix tree node: which of the
`PrefixTreeNode` subclasses of `index.ts` the node is, together with the
fields that subclass stores. -/
inductive NodeKind where
  | root
  | fixed (value : List Char) (modifier : Modifier)
  | wildcard (modifier : Modifier) (pfx : List Char) (suffix : List Char)
  | fullWildcard (modifier : Modifier)
  | regex (regexString : List Char)
deriving DecidableEq, Repr

/-- A prefix tree node (`PrefixTreeNode` and subclasses in `index.ts`): the
URL component tag, the kind-specific data, `minSequence`, the patterns ending
at this node, and the ordered children. -/
inductive PrefixTreeNode (T : Type) : Type where
  | mk
      (urlComponentType : UrlComponentType)
      (kind : NodeKind)
      (minSequence : Nat)
      (patterns : List (Item T))
      (children : List (PrefixTreeNode T))
deriving Repr

namespace PrefixTreeNode

variable {T : Type}

def urlComponentType : PrefixTreeNode T → UrlComponentType
  | .mk u _ _ _ _ => u

def kind : PrefixTreeNode T → NodeKind
  | .mk _ k _ _ _ => k

def minSequence : PrefixTreeNode T → Nat
  | .mk _ _ m _ _ => m

def patterns : PrefixTreeNode T → List (Item T)
  | .mk _ _ _ p _ => p

def children : PrefixTreeNode T → List (PrefixTreeNode T)
  | .mk _ _ _ _ c => c

end PrefixTreeNode

/-- `matchesPart` of each node subclass in `index.ts`: whether this tree node
can be reused for the given parsed pattern part.  The capture `name` is never
consulted. -/
def matchesPart {T : Type} (n : PrefixTreeNode T) (part : Part) : Bool :=
  match n.kind with
  | .root => true
  | .fixed v m =>
      part.type = PartType.fixed ∧
      part.urlComponentType = n.urlComponentType ∧
      part.value = v ∧
      part.modifier = m
  | .wildcard m px sx =>
      part.type = PartType.segmentWildcard ∧
      part.urlComponentType = n.urlComponentType ∧
      part.modifier = m ∧
      part.pfx = px ∧
      part.suffix = sx
  | .fullWildcard m =>
      part.type = PartType.fullWildcard ∧
      part.urlComponentType = n.urlComponentType ∧
      part.modifier = m
  | .regex r =>
      part.type = PartType.regex ∧
      part.urlComponentType = n.urlComponentType ∧
      part.value = r

/-- Construction of a fresh child node for a part, as in the `switch` of
`URLPatternList.#getOrCreateChildNode`.  A new node starts with
`minSequence = Number.MAX_SAFE_INTEGER`, no patterns and no children. -/
def newNode {T : Type} (part : Part) : PrefixTreeNode T :=
  match part.type with
  | .fixed =>
      .mk part.urlComponentType (.fixed part.value part.modifier) maxSafeInteger [] []
  | .segmentWildcard =>
      .mk part.urlComponentType (.wildcard part.modifier part.pfx part.suffix)
        maxSafeInteger [] []
  | .fullWildcard =>
      .mk part.urlComponentType (.fullWildcard part.modifier) maxSafeInteger [] []
  | .regex =>
      .mk part.urlComponentType (.regex part.value) maxSafeInteger [] []

/-- `if (item.sequence < currentNode.minSequence) currentNode.minSequence =
item.sequence`, the `minSequence` update at the top of
`URLPatternList.#addPatternToTree`. -/
def bumpMinSequence {T : Type} (node : PrefixTreeNode T) (seq : Nat) :
    PrefixTreeNode T :=
  if seq < node.minSequence then
    .mk node.urlComponentType node.kind seq node.patterns node.children
  else node

/-- The child scan of `URLPatternList.#getOrCreateChildNode`, fused with the
recursive descent: the first child accepting `part` (via `matchesPart`) is
replaced by its updated subtree `upd c`; when no child matches, the subtree
`fresh` grown from a newly constructed node is appended. -/
def insertIntoChildren {T : Type} (part : Part)
    (upd : PrefixTreeNode T → PrefixTreeNode T) (fresh : PrefixTreeNode T) :
    List (PrefixTreeNode T) → List (PrefixTreeNode T)
  | [] => [fresh]
  | c :: rest =>
      if matchesPart c part then upd c :: rest
      else c :: insertIntoChildren part upd fresh rest

/-- `URLPatternList.#addPatternToTree` combined with `#getOrCreateChildNode`
(made pure: the mutated node is returned).  On entry `minSequence` is lowered
to the new item's sequence if smaller; with no parts left, the item is
appended to this node's `patterns`; otherwise the first child reusable for
the head part is descended into (or a fresh node is appended). -/
def addPatternToTree {T : Type} (node : PrefixTreeNode T) (parts : List Part)
    (item : Item T) : PrefixTreeNode T :=
  let node' := bumpMinSequence node item.sequence
  match parts with
  | [] =>
      .mk node'.urlComponentType node'.kind node'.minSequence
        (node'.patterns ++ [item]) node'.children
  | part :: rest =>
      .mk node'.urlComponentType node'.kind node'.minSequence node'.patterns
        (insertIntoChildren part (fun c => addPatternToTree c rest item)
          (addPatternToTree (newNode part) rest item) node'.children)

/-- The root node as built by the `URLPatternList` constructor:
`RootPrefixTreeNode` carries the (irrelevant) pathname component tag. -/
def emptyRoot (T : Type) : PrefixTreeNode T :=
  .mk .pathname .root maxSafeInteger [] []

/-- The private state of a `URLPatternList`: the tree root and the sequence
counter. -/
structure ListState (T : Type) where
  root : PrefixTreeNode T
  sequenceCounter : Nat

def emptyState (T : Type) : ListState T :=
  ⟨emptyRoot T, 0⟩

/-- `URLPatternList.addPattern`.  Parsing (`parseFullURL`) happens first and
is external; its outcome (the part list, or the raised error) is the
`parseResult` argument.  When the parser throws, the exception propagates and
no state is touched; otherwise the item is numbered with the current counter
and inserted. -/
def addPattern {T : Type} (st : ListState T) (parseResult : Except String (List Part))
    (patternHandle : Nat) (value : T) : Except String Unit × ListState T :=
  match parseResult with
  | .error e => (.error e, st)
  | .ok parts =>
      let item : Item T := ⟨st.sequenceCounter, patternHandle, value⟩
      (.ok (),
        ⟨addPatternToTree st.root parts item, st.sequenceCounter + 1⟩)

mutual

/-- All patterns stored at a node or anywhere in its subtree. -/
def allPatterns {T : Type} : PrefixTreeNode T → List (Item T)
  | .mk _ _ _ pats children => pats ++ allPatternsList children

def allPatternsList {T : Type} : List (PrefixTreeNode T) → List (Item T)
  | [] => []
  | c :: rest => allPatterns c ++ allPatternsList rest

end

/-! ### JavaScript string helpers (on `List Char`) -/

/-- `value.startsWith(expected, position)`. -/
def startsWithAt (s pre : List Char) (pos : Nat) : Bool :=
  pre.isPrefixOf (s.drop pos)

/-- `s.indexOf(c, start)` returning `none` for `-1` (absolute index). -/
def indexOfCharFrom (s : List Char) (c : Char) (start : Nat) : Option Nat :=
  match (s.drop start).findIdx? (fun x => x = c) with
  | some j => some (start + j)
  | none => none

/-- `s.indexOf(sub)` for a substring, returning `none` for `-1`. -/
def indexOfSub (s sub : List Char) : Option Nat :=
  (List.range (s.length + 1)).find? (fun i => sub.isPrefixOf (s.drop i))

/-- `s.split(c)`: JavaScript split on a single character (result is always
non-empty). -/
def splitChar (c : Char) : List Char → List (List Char)
  | [] => [[]]
  | x :: rest =>
      match splitChar c rest with
      | [] => [[]]
      | h :: t => if x = c then [] :: h :: t else (x :: h) :: t

/-- Count characters of `s` before the first occurrence of `c` (the
`for`-loops that scan for `'/'`). -/
def countUntilChar (c : Char) : List Char → Nat
  | [] => 0
  | x :: rest => if x = c then 0 else countUntilChar c rest + 1

/-- The greedy repetition loop of `FixedPrefixTreeNode.match` for
`OneOrMore`/`ZeroOrMore`: repeatedly consume `v` at `idx` while it is
present.  Returns `(consumedLength, matchCount)`.  Fuel `s.length + 1`
always suffices when `v ≠ []`. -/
def fixedGreedyGo (v s : List Char) : Nat → Nat → Nat × Nat
  | 0, _ => (0, 0)
  | fuel + 1, idx =>
      if v.isPrefixOf (s.drop idx) then
        let r := fixedGreedyGo v s fuel (idx + v.length)
        (v.length + r.1, r.2 + 1)
      else (0, 0)

/-- The same loop, with `none` marking the case `v = []` on which the
JavaScript `while` loop never terminates. -/
def fixedGreedy (v s : List Char) (pos : Nat) : Option (Nat × Nat) :=
  if v = [] then none else some (fixedGreedyGo v s (s.length + 1) pos)

/-! ### The pure per-segment consumption helpers of `WildcardPrefixTreeNode` -/

/-- `WildcardPrefixTreeNode.#matchWithPrefixSuffix`.  Values are `Int`
because sibling helpers signal failure with `-1`. -/
def matchWithPfxSfx (uct : UrlComponentType) (px sx remaining : List Char) : Int :=
  if remaining ≠ [] ∧ px.isPrefixOf remaining then
    let afterPx := remaining.drop px.length
    if sx ≠ [] then
      match indexOfSub afterPx sx with
      | some si =>
          if si > 0 then
            let content := afterPx.take si
            if uct = .pathname then
              if ¬ content.contains '/' then
                ((px.length + content.length + sx.length : Nat) : Int)
              else 0
            else ((px.length + content.length + sx.length : Nat) : Int)
          else 0
      | none => 0
    else
      let contentLength := if uct = .pathname then countUntilChar '/' afterPx
        else afterPx.length
      if contentLength > 0 then ((px.length + contentLength : Nat) : Int) else 0
  else 0

/-- `WildcardPrefixTreeNode.#matchSingleSegment`. -/
def matchSingleSegment (uct : UrlComponentType) (px sx remaining : List Char) : Int :=
  if px ≠ [] ∨ sx ≠ [] then matchWithPfxSfx uct px sx remaining
  else if remaining = [] then 0
  else if uct = .pathname ∧ remaining.head? = some '/' then
    let segmentContent := remaining.drop 1
    if segmentContent = [] then 0 else ((1 + segmentContent.length : Nat) : Int)
  else (remaining.length : Int)

/-- `WildcardPrefixTreeNode.#matchMultipleSegments`. -/
def matchMultipleSegments (uct : UrlComponentType) (remaining : List Char)
    (requireAtLeastOne : Bool) : Int :=
  if uct = .pathname then
    if remaining = [] ∨ ¬ remaining.head? = some '/' then
      if requireAtLeastOne then -1 else 0
    else (remaining.length : Int)
  else
    if remaining = [] then (if requireAtLeastOne then -1 else 0)
    else (remaining.length : Int)

/-- `WildcardPrefixTreeNode.#matchOptionalSegment`. -/
def matchOptionalSegment (uct : UrlComponentType) (px sx remaining : List Char) : Int :=
  if px ≠ [] ∨ sx ≠ [] then matchWithPfxSfx uct px sx remaining
  else if remaining = [] then 0
  else if uct = .pathname then
    if remaining.head? = some '/' then
      let segmentContent := remaining.drop 1
      if segmentContent = [] then 0 else ((1 + segmentContent.length : Nat) : Int)
    else (remaining.length : Int)
  else (remaining.length : Int)

/-- The `while` loop of `WildcardPrefixTreeNode.#matchOneOrMoreWithPrefix`
(fuel-bounded; `remaining.length + 1` suffices since the callers guarantee
`px ≠ []` and every continuing iteration consumes at least `px.length + 1`
characters). -/
def oneOrMorePfxGo (uct : UrlComponentType) (px : List Char) :
    Nat → List Char → Nat → Nat
  | 0, _, total => total
  | fuel + 1, cur, total =>
      if px.isPrefixOf cur then
        let afterPx := cur.drop px.length
        if afterPx = [] then total + px.length
        else
          let contentLength := if uct = .pathname then countUntilChar '/' afterPx
            else afterPx.length
          if contentLength > 0 then
            let segmentLength := px.length + contentLength
            if uct = .pathname then
              oneOrMorePfxGo uct px fuel (cur.drop segmentLength)
                (total + segmentLength)
            else total + segmentLength
          else total
      else total

/-- `WildcardPrefixTreeNode.#matchOneOrMoreWithPrefix`. -/
def matchOneOrMoreWithPfx (uct : UrlComponentType) (px remaining : List Char) : Int :=
  if ¬ px.isPrefixOf remaining then -1
  else
    let total := oneOrMorePfxGo uct px (remaining.length + 1) remaining 0
    if total > 0 then (total : Int) else -1

/-! ### The matcher (`match` of each node class and `tryPatternsAndChildren`)

The recursion of the source is: a node's `match` consumes according to its
kind and calls `tryPatternsAndChildren` on the same node (possibly once per
backtracking position), which recurses into `match` of each child.  The
embedding uses an explicit recursion-depth fuel that decreases exactly at
`match` (one unit per tree level); the outer `Option` layer is `none` when
the fuel runs out or the source would diverge, so fuel sufficiency (`height`
of the node) is a provable statement rather than an assumption. -/

/-- One `(component_tag, text)` pair of the decomposed URL. -/
structure URLComponent where
  value : List Char
  type : UrlComponentType
deriving Repr, DecidableEq

/-- `urlComponents[i]` (the source never reads out of bounds on reachable
inputs; the default is arbitrary). -/
def compGet (comps : List URLComponent) (i : Nat) : URLComponent :=
  comps.getD i ⟨[], .pathname⟩

/-- `baseUrl ? pattern.test(fullUrl, baseUrl) : pattern.test(fullUrl)` - the
JavaScript truthiness test treats the empty string like `undefined`. -/
def callTest (test : Nat → String → Option String → Bool) (pat : Nat)
    (url : String) (base : Option String) : Bool :=
  match base with
  | some b => if b ≠ "" then test pat url (some b) else test pat url none
  | none => test pat url none

/-- The analogous dispatch for `pattern.exec`. -/
def callExec {R : Type} (exec : Nat → String → Option String → Option R)
    (pat : Nat) (url : String) (base : Option String) : Option R :=
  match base with
  | some b => if b ≠ "" then exec pat url (some b) else exec pat url none
  | none => exec pat url none

/-- The `while` loop of `tryPatternsAndChildren` that advances the component
index past components ordered before the child's component tag (fuel
`comps.length` suffices). -/
def advanceLoop (comps : List URLComponent) (target : UrlComponentType) :
    Nat → Nat → Nat → Nat × Nat
  | 0, ci, pos => (ci, pos)
  | fuel + 1, ci, pos =>
      if ci < comps.length ∧ (compGet comps ci).type.toNat < target.toNat then
        advanceLoop comps target fuel (ci + 1) 0
      else (ci, pos)

/-- The patterns-at-this-node loop of `tryPatternsAndChildren`: walk the
node's own patterns in insertion order, skipping ones that cannot beat the
best candidate, and accept an item when its evaluator accepts the URL. -/
def tryPatternsLoop {T : Type} (test : Nat → String → Option String → Bool)
    (url : String) (base : Option String) :
    List (Item T) → Option (Item T) → Option (Item T)
  | [], best => best
  | item :: rest, best =>
      match best with
      | some b =>
          if item.sequence > b.sequence then
            tryPatternsLoop test url base rest (some b)
          else if callTest test item.pattern url base then
            if item.sequence < b.sequence then
              tryPatternsLoop test url base rest (some item)
            else
              tryPatternsLoop test url base rest (some b)
          else tryPatternsLoop test url base rest (some b)
      | none =>
          if callTest test item.pattern url base then
            tryPatternsLoop test url base rest (some item)
          else tryPatternsLoop test url base rest none

/-- The `bestMatch` update after a child recursion: replace the best
candidate when the new match exists and has a strictly smaller sequence. -/
def betterCandidate {T : Type} (m best : Option (Item T)) : Option (Item T) :=
  match m, best with
  | some mi, some b => if mi.sequence < b.sequence then some mi else some b
  | some mi, none => some mi
  | none, b => b

/-- The children loop of `tryPatternsAndChildren`: subtrees whose
`minSequence` cannot improve on the best candidate are pruned; otherwise the
component index is advanced to the child's component tag and the child is
recursed into. -/
def tryChildrenGo {T : Type}
    (recMatch : PrefixTreeNode T → Nat → Nat → Option (Option (Item T)))
    (comps : List URLComponent) (aci apos : Nat) :
    List (PrefixTreeNode T) → Option (Item T) → Option (Option (Item T))
  | [], best => some best
  | c :: rest, best =>
      if (match best with
          | some b => decide (c.minSequence > b.sequence)
          | none => false) then
        tryChildrenGo recMatch comps aci apos rest best
      else
        if (advanceLoop comps c.urlComponentType comps.length aci apos).1 =
            comps.length ∨
            (compGet comps
              (advanceLoop comps c.urlComponentType comps.length aci apos).1).type.toNat >
              c.urlComponentType.toNat then
          tryChildrenGo recMatch comps aci apos rest best
        else
          match recMatch c
              (advanceLoop comps c.urlComponentType comps.length aci apos).1
              (advanceLoop comps c.urlComponentType comps.length aci apos).2 with
          | none => none
          | some m =>
              tryChildrenGo recMatch comps aci apos rest (betterCandidate m best)

/-- The advanced `(componentIndex, position)` computed at the top of
`tryPatternsAndChildren`: when the current component is consumed, move on to
the next component unless some child continues within the same component
type. -/
def advancedIndex {T : Type} (childs : List (PrefixTreeNode T))
    (comps : List URLComponent) (ci pos : Nat) : Nat × Nat :=
  if pos ≥ (compGet comps ci).value.length then
    if childs.any (fun c => c.urlComponentType = (compGet comps ci).type) then
      (ci, pos)
    else (ci + 1, 0)
  else (ci, pos)

/-- `PrefixTreeNode.tryPatternsAndChildren`: compute the advanced component
index, try children first, then the node's own patterns when the current
component is consumed and we are at the last component or no child candidate
was found. -/
def tryPatternsAndChildren {T : Type} (test : Nat → String → Option String → Bool)
    (recMatch : PrefixTreeNode T → Nat → Nat → Option (Option (Item T)))
    (pats : List (Item T)) (childs : List (PrefixTreeNode T))
    (comps : List URLComponent) (ci pos : Nat) (url : String)
    (base : Option String) : Option (Option (Item T)) :=
  match tryChildrenGo recMatch comps (advancedIndex childs comps ci pos).1
      (advancedIndex childs comps ci pos).2 childs none with
  | none => none
  | some best =>
      if pos ≥ (compGet comps ci).value.length ∧
          ((advancedIndex childs comps ci pos).1 ≥ comps.length ∨ best.isNone) then
        some (tryPatternsLoop test url base pats best)
      else some best

/-- A backtracking loop: attempt `tryPatternsAndChildren` at each position of
the list in order and return the first hit. -/
def tryPositionsGo {T : Type} (test : Nat → String → Option String → Bool)
    (recMatch : PrefixTreeNode T → Nat → Nat → Option (Option (Item T)))
    (pats : List (Item T)) (childs : List (PrefixTreeNode T))
    (comps : List URLComponent) (ci : Nat) (url : String) (base : Option String) :
    List Nat → Option (Option (Item T))
  | [] => some none
  | p :: rest =>
      match tryPatternsAndChildren test recMatch pats childs comps ci p url base with
      | none => none
      | some (some m) => some (some m)
      | some Option.none =>
          tryPositionsGo test recMatch pats childs comps ci url base rest

/-- `consumedLength` for consuming the first `cnt` `/`-separated segments in
the `ZeroOrMore`/`OneOrMore` wildcard backtracking loops: the leading slash,
the segment texts and the slashes between them. -/
def segmentConsumedLen (segments : List (List Char)) (cnt : Nat) : Nat :=
  1 + ((segments.take cnt).map List.length).sum + (cnt - 1)

/-- The `if (zeroMatch !== null) return zeroMatch; <continue>` control flow
shared by several node kinds, lifted over the fuel layer: a completed hit is
returned, a completed miss falls through to the continuation, running out of
fuel propagates. -/
def attemptThen {T : Type} (x y : Option (Option (Item T))) :
    Option (Option (Item T)) :=
  match x with
  | none => none
  | some (some z) => some (some z)
  | some Option.none => y

/-- The `match` method of every node class, dispatching on the node kind.
`fuel` bounds the recursion depth (one unit per tree level); the result is
`none` when the fuel runs out, or when the source itself would diverge (the
greedy `Fixed` loop with an empty literal).  `some r` is the value the
source returns.  `regexTest regexString segment` is the opaque compiled
regex of a regex node, including the permissive fallback for a regex source
that failed to compile. -/
def nodeMatchF {T : Type} (test : Nat → String → Option String → Bool)
    (regexTest : List Char → List Char → Bool) :
    Nat → PrefixTreeNode T → List URLComponent → Nat → Nat → String →
    Option String → Option (Option (Item T))
  | 0, _, _, _, _, _, _ => none
  | fuel + 1, node, comps, ci, pos, url, base =>
    let rm : PrefixTreeNode T → Nat → Nat → Option (Option (Item T)) :=
      fun c ci' pos' => nodeMatchF test regexTest fuel c comps ci' pos' url base
    match node with
    | .mk uct kind _minSeq pats childs =>
      match kind with
      | .root =>
          -- RootPrefixTreeNode.match
          tryPatternsAndChildren test rm pats childs comps ci pos url base
      | .fixed v m =>
          -- FixedPrefixTreeNode.match
          let comp := compGet comps ci
          if comp.type ≠ uct then some Option.none
          else if m = Modifier.oneOrMore ∨ m = Modifier.zeroOrMore then
            match fixedGreedy v comp.value pos with
            | none => none
            | some r =>
                let minimumMatches := if m = Modifier.oneOrMore then 1 else 0
                if r.2 ≥ minimumMatches then
                  tryPatternsAndChildren test rm pats childs comps ci (pos + r.1)
                    url base
                else some Option.none
          else if startsWithAt comp.value v pos then
            tryPatternsAndChildren test rm pats childs comps ci (pos + v.length)
              url base
          else if m = Modifier.optional then
            tryPatternsAndChildren test rm pats childs comps ci pos url base
          else some Option.none
      | .wildcard m px sx =>
          -- WildcardPrefixTreeNode.match
          let comp := compGet comps ci
          if comp.type ≠ uct then some Option.none
          else
            let value := comp.value
            if m = Modifier.zeroOrMore ∧ ¬ childs.isEmpty then
              -- backtracking over whole segments, zero consumption first
              attemptThen
                (tryPatternsAndChildren test rm pats childs comps ci pos url base)
                (let remaining := value.drop pos
                  if remaining ≠ [] ∧ remaining.head? = some '/' then
                    let segments := (splitChar '/' remaining).drop 1
                    tryPositionsGo test rm pats childs comps ci url base
                      ((List.range segments.length).map
                        (fun j => pos + segmentConsumedLen segments (j + 1)))
                  else some Option.none)
            else if m = Modifier.oneOrMore ∧ ¬ childs.isEmpty then
              let remaining := value.drop pos
              if remaining ≠ [] ∧ remaining.head? = some '/' then
                let segments := (splitChar '/' remaining).drop 1
                tryPositionsGo test rm pats childs comps ci url base
                  ((List.range segments.length).map
                    (fun j => pos + segmentConsumedLen segments (j + 1)))
              else some Option.none
            else if m = Modifier.none ∧ ¬ childs.isEmpty then
              let remaining := value.drop pos
              if px ≠ [] ∨ sx ≠ [] then
                if ¬ px.isPrefixOf remaining then some Option.none
                else
                  let afterPx := remaining.drop px.length
                  if afterPx = [] then some Option.none
                  else
                    tryPositionsGo test rm pats childs comps ci url base
                      ((List.range afterPx.length).map
                        (fun j => pos + (px.length + (j + 1))))
              else
                if remaining = [] then some Option.none
                else
                  tryPositionsGo test rm pats childs comps ci url base
                    ((List.range remaining.length).map (fun j => pos + (j + 1)))
            else
              -- the switch over modifiers for the remaining cases
              let remaining := value.drop pos
              let consumedChars : Int :=
                match m with
                | .none => matchSingleSegment uct px sx remaining
                | .zeroOrMore =>
                    if px ≠ [] ∧ px ≠ ['/'] then matchWithPfxSfx uct px sx remaining
                    else matchMultipleSegments uct remaining false
                | .oneOrMore =>
                    if px ≠ [] ∧ px ≠ ['/'] then matchOneOrMoreWithPfx uct px remaining
                    else matchMultipleSegments uct remaining true
                | .optional => matchOptionalSegment uct px sx remaining
              -- normal consumption; for OneOrMore with zero consumption the
              -- source falls back to a zero-consumption attempt whose result
              -- (or the final `return null`) is that attempt's value
              let step2 : Option (Option (Item T)) :=
                if consumedChars > 0 then
                  tryPatternsAndChildren test rm pats childs comps ci
                    (pos + consumedChars.toNat) url base
                else if m = Modifier.oneOrMore ∧ consumedChars = 0 then
                  tryPatternsAndChildren test rm pats childs comps ci pos url base
                else some Option.none
              if m = Modifier.zeroOrMore ∨ m = Modifier.optional then
                attemptThen
                  (tryPatternsAndChildren test rm pats childs comps ci pos url base)
                  step2
              else step2
      | .fullWildcard m =>
          -- FullWildcardPrefixTreeNode.match
          let comp := compGet comps ci
          if comp.type ≠ uct then some Option.none
          else
            let value := comp.value
            let rest : Option (Option (Item T)) :=
              if childs.isEmpty then
                if value.length > pos then
                  tryPatternsAndChildren test rm pats childs comps ci value.length
                    url base
                else some Option.none
              else
                tryPositionsGo test rm pats childs comps ci url base
                  (if pos ≤ value.length then
                    (List.range (value.length - pos + 1)).reverse.map
                      (fun k => pos + k)
                   else [])
            if m = Modifier.zeroOrMore ∨ m = Modifier.optional ∨
                m = Modifier.oneOrMore then
              attemptThen
                (tryPatternsAndChildren test rm pats childs comps ci pos url base)
                rest
            else rest
      | .regex r =>
          -- RegexPrefixTreeNode.match
          let comp := compGet comps ci
          if comp.type ≠ uct then some Option.none
          else
            let value := comp.value
            if pos ≥ value.length then some Option.none
            else if uct = UrlComponentType.pathname then
              if startsWithAt value ['/'] pos then
                let seg :=
                  match indexOfCharFrom value '/' (pos + 1) with
                  | some j => (value.drop (pos + 1)).take (j - (pos + 1))
                  | none => value.drop (pos + 1)
                if seg = [] then some Option.none
                else if regexTest r seg then
                  tryPatternsAndChildren test rm pats childs comps ci
                    (pos + (1 + seg.length)) url base
                else some Option.none
              else
                let seg :=
                  match indexOfCharFrom value '/' pos with
                  | some j => (value.drop pos).take (j - pos)
                  | none => value.drop pos
                if seg = [] then some Option.none
                else if regexTest r seg then
                  tryPatternsAndChildren test rm pats childs comps ci
                    (pos + seg.length) url base
                else some Option.none
            else
              let seg := value.drop pos
              if seg = [] then some Option.none
              else if regexTest r seg then
                tryPatternsAndChildren test rm pats childs comps ci
                  (pos + seg.length) url base
              else some Option.none

mutual

/-- The recursion depth of the tree: enough fuel for `nodeMatchF`. -/
def height {T : Type} : PrefixTreeNode T → Nat
  | .mk _ _ _ _ children => 1 + heightList children

def heightList {T : Type} : List (PrefixTreeNode T) → Nat
  | [] => 0
  | c :: rest => max (height c) (heightList rest)

end

/-- The fields of a resolved `URL` object that `URLPatternList.match` reads.
`protocol` includes the trailing `':'`, `search` the leading `'?'` and
`hash` the leading `'#'`, as in the DOM API; `href` is `url.toString()`. -/
structure URLRecord where
  protocol : List Char
  username : List Char
  password : List Char
  hostname : List Char
  port : List Char
  pathname : List Char
  search : List Char
  hash : List Char
  href : String
deriving Repr, DecidableEq

/-- The component slicing at the top of `URLPatternList.match`: each
component is pushed only when non-empty, in the fixed component order. -/
def buildComponents (u : URLRecord) : List URLComponent :=
  (if u.protocol ≠ [] then [⟨u.protocol.dropLast, .protocol⟩] else []) ++
  (if u.username ≠ [] then [⟨u.username, .username⟩] else []) ++
  (if u.password ≠ [] then [⟨u.password, .password⟩] else []) ++
  (if u.hostname ≠ [] then [⟨u.hostname, .hostname⟩] else []) ++
  (if u.port ≠ [] then [⟨u.port, .port⟩] else []) ++
  (if u.pathname ≠ [] then [⟨u.pathname, .pathname⟩] else []) ++
  (if u.search ≠ [] then [⟨u.search.drop 1, .search⟩] else []) ++
  (if u.hash ≠ [] then [⟨u.hash.drop 1, .hash⟩] else [])

/-- `URLPatternList.match`.  A string input is resolved by the external
resolver (`new URL(url, baseUrl)`); a failed resolution is a raised
`TypeError`, modelled by the `Except.error` branch.  A tree hit is confirmed
with the evaluator's `exec`; only a non-null `exec` result yields a match. -/
def matchTop {T R : Type} (resolve : String → Option String → Except String URLRecord)
    (test : Nat → String → Option String → Bool)
    (exec : Nat → String → Option String → Option R)
    (regexTest : List Char → List Char → Bool)
    (st : ListState T) (input : String ⊕ URLRecord) (base : Option String) :
    Except String (Option (R × T)) :=
  match (match input with
         | .inl s => resolve s base
         | .inr u => Except.ok u) with
  | .error e => .error e
  | .ok u =>
      let comps := buildComponents u
      match (nodeMatchF test regexTest (height st.root) st.root comps 0 0
          u.href base).getD Option.none with
      | Option.none => .ok Option.none
      | some item =>
          match callExec exec item.pattern u.href base with
          | some r => .ok (some (r, item.value))
          | none => .ok Option.none

/-! ### The reference linear implementation (`NaiveURLPatternList`) -/

/-- `NaiveURLPatternList.addPattern`: append to the flat list (its stored
`sequence` is a constant 0 and is never consulted). -/
def naiveAddPattern {T : Type} (lst : List (Item T)) (patternHandle : Nat)
    (value : T) : List (Item T) :=
  lst ++ [⟨0, patternHandle, value⟩]

/-- `NaiveURLPatternList.match`: first registration whose evaluator `test`
accepts the URL and whose `exec` is non-null. -/
def naiveMatch {T R : Type} (test : Nat → String → Option String → Bool)
    (exec : Nat → String → Option String → Option R) :
    List (Item T) → String → Option String → Option (R × T)
  | [], _, _ => none
  | item :: rest, url, base =>
      if callTest test item.pattern url base then
        match callExec exec item.pattern url base with
        | some r => some (r, item.value)
        | none => naiveMatch test exec rest url base
      else naiveMatch test exec rest url base

/-! ### A concrete registration scenario on which the prefix tree and the
linear oracle disagree.

Pattern 0 is `{pathname: '/a'}` (parts: one Fixed pathname part `/a`; the
other components are catch-alls and are omitted by the parser).  Pattern 1 is
`{pathname: '/a', search: 'q'}` (parts: Fixed pathname `/a`, then Fixed
search `q`).  The URL is `https://x/a?q`.  The real `URLPattern` evaluator
accepts both patterns on this URL, which the opaque evaluator below mirrors
by accepting everything. -/

def exPartsA : List Part :=
  [⟨.fixed, .pathname, "", [], "/a".toList, [], .none⟩]

def exPartsB : List Part :=
  [⟨.fixed, .pathname, "", [], "/a".toList, [], .none⟩,
   ⟨.fixed, .search, "", [], "q".toList, [], .none⟩]

def exUrl : URLRecord :=
  ⟨"https:".toList, [], [], "x".toList, [], "/a".toList, "?q".toList, [],
   "https://x/a?q"⟩

/-- An evaluator whose `test` accepts every (pattern, URL) pair. -/
def allTrueTest : Nat → String → Option String → Bool := fun _ _ _ => true

/-- An `exec` returning the pattern handle itself as the result object. -/
def execHandle : Nat → String → Option String → Option Nat := fun p _ _ => some p

def noRegexTest : List Char → List Char → Bool := fun _ _ => false

def resolveFailing : String → Option String → Except String URLRecord :=
  fun _ _ => .error "TypeError"

/-- The index after registering pattern 0 (payload `"A"`) and then pattern 1
(payload `"B"`). -/
def exState : ListState String :=
  (addPattern ((addPattern (emptyState String) (.ok exPartsA) 0 "A").2)
    (.ok exPartsB) 1 "B").2

/-- The same two registrations in the reference linear list. -/
def exNaive : List (Item String) :=
  naiveAddPattern (naiveAddPattern [] 0 "A") 1 "B"

/-- C1: the claim says `URLPatternList.match` agrees with the reference
linear implementation for every registration sequence and URL, with the
evaluator opaque.  On the registrations `{pathname:'/a'} → "A"` then
`{pathname:'/a', search:'q'} → "B"` and the URL `https://x/a?q` (both
evaluators accept), the prefix tree returns the later payload `"B"` while
the linear oracle returns the first accepting payload `"A"`: the walk finds
pattern 1 in the search-component child first and then skips the patterns
stored at the `/a` node because the current component is not the last one.
The code therefore violates its own linear-equivalence contract. -/
theorem c1_tree_disagrees_with_linear_oracle :
    matchTop resolveFailing allTrueTest execHandle noRegexTest exState
        (Sum.inr exUrl) none = .ok (some (1, "B")) ∧
    naiveMatch allTrueTest execHandle exNaive "https://x/a?q" none =
      some (0, "A") := by
  exact ⟨rfl, by decide⟩

/-- C2: the claim says that whenever two registered patterns both accept a
URL, the earlier-registered one is returned.  On the scenario of
`c1_tree_disagrees_with_linear_oracle` both registered patterns' evaluators
accept the URL and `sequence 0 < sequence 1`, yet `match` returns the
payload and handle of the later pattern 1. -/
theorem c2_later_pattern_beats_earlier_accepting_pattern :
    callTest allTrueTest 0 "https://x/a?q" none = true ∧
    callTest allTrueTest 1 "https://x/a?q" none = true ∧
    matchTop resolveFailing allTrueTest execHandle noRegexTest exState
        (Sum.inr exUrl) none = .ok (some (1, "B")) := by
  exact ⟨rfl, rfl, rfl⟩

/-! ### C5: `addPattern` is atomic -/

theorem addPatternToTree_nil {T : Type} (node : PrefixTreeNode T) (item : Item T) :
    addPatternToTree node [] item =
      .mk node.urlComponentType node.kind
        (if item.sequence < node.minSequence then item.sequence else node.minSequence)
        (node.patterns ++ [item]) node.children := by
  cases node with
  | mk u k m pats cs =>
    by_cases h : item.sequence < m <;>
      simp [addPatternToTree, bumpMinSequence, h, PrefixTreeNode.urlComponentType,
        PrefixTreeNode.kind, PrefixTreeNode.minSequence, PrefixTreeNode.patterns,
        PrefixTreeNode.children]

theorem addPatternToTree_cons {T : Type} (node : PrefixTreeNode T) (part : Part)
    (rest : List Part) (item : Item T) :
    addPatternToTree node (part :: rest) item =
      .mk node.urlComponentType node.kind
        (if item.sequence < node.minSequence then item.sequence else node.minSequence)
        node.patterns
        (insertIntoChildren part (fun c => addPatternToTree c rest item)
          (addPatternToTree (newNode part) rest item) node.children) := by
  cases node with
  | mk u k m pats cs =>
    by_cases h : item.sequence < m <;>
      simp [addPatternToTree, bumpMinSequence, h, PrefixTreeNode.urlComponentType,
        PrefixTreeNode.kind, PrefixTreeNode.minSequence, PrefixTreeNode.patterns,
        PrefixTreeNode.children]

theorem bumpMinSequence_patterns {T : Type} (n : PrefixTreeNode T) (s : Nat) :
    (bumpMinSequence n s).patterns = n.patterns := by
  cases n; unfold bumpMinSequence; split <;> rfl

theorem bumpMinSequence_children {T : Type} (n : PrefixTreeNode T) (s : Nat) :
    (bumpMinSequence n s).children = n.children := by
  cases n; unfold bumpMinSequence; split <;> rfl

theorem bumpMinSequence_kind {T : Type} (n : PrefixTreeNode T) (s : Nat) :
    (bumpMinSequence n s).kind = n.kind := by
  cases n; unfold bumpMinSequence; split <;> rfl

theorem bumpMinSequence_uct {T : Type} (n : PrefixTreeNode T) (s : Nat) :
    (bumpMinSequence n s).urlComponentType = n.urlComponentType := by
  cases n; unfold bumpMinSequence; split <;> rfl

theorem allPatterns_node {T : Type} (n : PrefixTreeNode T) :
    allPatterns n = n.patterns ++ allPatternsList n.children := by
  cases n; rfl

theorem allPatterns_newNode {T : Type} (part : Part) :
    allPatterns (newNode part : PrefixTreeNode T) = [] := by
  unfold newNode; cases part.type <;> rfl

/-- Effect of the child-scan on the multiset of patterns in the children. -/
theorem allPatternsList_insertIntoChildren {T : Type} (part : Part)
    (upd : PrefixTreeNode T → PrefixTreeNode T) (fresh : PrefixTreeNode T)
    (item : Item T)
    (hupd : ∀ c : PrefixTreeNode T,
      (allPatterns (upd c)).Perm (item :: allPatterns c))
    (hfresh : (allPatterns fresh).Perm [item]) :
    ∀ cs : List (PrefixTreeNode T),
      (allPatternsList (insertIntoChildren part upd fresh cs)).Perm
        (item :: allPatternsList cs)
  | [] => by
      simpa [insertIntoChildren, allPatternsList] using hfresh
  | c :: rest => by
      unfold insertIntoChildren
      split
      · simpa [allPatternsList] using (hupd c).append_right (allPatternsList rest)
      · show (allPatterns c ++
            allPatternsList (insertIntoChildren part upd fresh rest)).Perm
            (item :: (allPatterns c ++ allPatternsList rest))
        exact Trans.trans
          ((allPatternsList_insertIntoChildren part upd fresh item hupd hfresh
            rest).append_left (allPatterns c))
          List.perm_middle

/-- Inserting a pattern adds exactly that registration to the tree. -/
theorem allPatterns_addPatternToTree {T : Type} :
    ∀ (parts : List Part) (node : PrefixTreeNode T) (item : Item T),
      (allPatterns (addPatternToTree node parts item)).Perm
        (item :: allPatterns node)
  | [], node, item => by
      rw [addPatternToTree_nil]
      cases node
      simp only [allPatterns_node, PrefixTreeNode.patterns, PrefixTreeNode.children]
      rw [List.append_assoc]
      exact List.perm_middle
  | part :: rest, node, item => by
      rw [addPatternToTree_cons]
      cases node with
      | mk u k m pats cs =>
        simp only [allPatterns_node, PrefixTreeNode.patterns, PrefixTreeNode.children]
        exact Trans.trans
          ((allPatternsList_insertIntoChildren part _ _ item
            (fun c => allPatterns_addPatternToTree rest c item)
            (by simpa [allPatterns_newNode] using
              allPatterns_addPatternToTree rest (newNode part) item)
            cs).append_left pats)
          List.perm_middle

/-- C5: `addPattern` is atomic.  When the parser throws, the error is
propagated unchanged and the state (tree and sequence counter) is exactly the
state before the call; when the parser succeeds, the call returns normally,
the sequence counter increases by one and exactly the one new registration
(carrying the old counter value) is added to the tree. -/
theorem c5_addPattern_atomic {T : Type} (st : ListState T) (e : String)
    (parts : List Part) (patternHandle : Nat) (value : T) :
    addPattern st (.error e) patternHandle value = (.error e, st) ∧
    (addPattern st (.ok parts) patternHandle value).1 = .ok () ∧
    (addPattern st (.ok parts) patternHandle value).2.sequenceCounter =
      st.sequenceCounter + 1 ∧
    (allPatterns (addPattern st (.ok parts) patternHandle value).2.root).Perm
      (⟨st.sequenceCounter, patternHandle, value⟩ :: allPatterns st.root) := by
  refine ⟨rfl, rfl, rfl, ?_⟩
  exact allPatterns_addPatternToTree parts st.root _

/-! ### C3: the `minSequence` summary bounds every sequence in the subtree -/

/-- Nodes reachable from a node by following `children` edges. -/
inductive Reachable {T : Type} : PrefixTreeNode T → PrefixTreeNode T → Prop where
  | refl (n : PrefixTreeNode T) : Reachable n n
  | child {n c d : PrefixTreeNode T} :
      c ∈ n.children → Reachable c d → Reachable n d

/-- The `minSequence` invariant, stated recursively over the tree. -/
inductive MinSeqOk {T : Type} : PrefixTreeNode T → Prop where
  | mk {n : PrefixTreeNode T} :
      (∀ it ∈ allPatterns n, n.minSequence ≤ it.sequence) →
      (∀ c ∈ n.children, MinSeqOk c) →
      MinSeqOk n

theorem MinSeqOk.bound {T : Type} {n : PrefixTreeNode T} (h : MinSeqOk n) :
    ∀ it ∈ allPatterns n, n.minSequence ≤ it.sequence := by
  cases h with | mk hb _ => exact hb

theorem MinSeqOk.childMin {T : Type} {n c : PrefixTreeNode T} (h : MinSeqOk n)
    (hc : c ∈ n.children) : MinSeqOk c := by
  cases h with | mk _ hcs => exact hcs c hc

/-- A member of the updated children list is the fresh subtree, an updated
old child, or an untouched old child. -/
theorem mem_insertIntoChildren {T : Type} {part : Part}
    {upd : PrefixTreeNode T → PrefixTreeNode T} {fresh d : PrefixTreeNode T} :
    ∀ {cs : List (PrefixTreeNode T)}, d ∈ insertIntoChildren part upd fresh cs →
      d = fresh ∨ (∃ c ∈ cs, d = upd c) ∨ d ∈ cs
  | [], h => by
      simp only [insertIntoChildren, List.mem_singleton] at h
      exact Or.inl h
  | c :: rest, h => by
      unfold insertIntoChildren at h
      split at h
      · rcases List.mem_cons.1 h with h | h
        · exact Or.inr (Or.inl ⟨c, List.mem_cons_self c rest, h⟩)
        · exact Or.inr (Or.inr (List.mem_cons_of_mem c h))
      · rcases List.mem_cons.1 h with h | h
        · exact Or.inr (Or.inr (by simp [h]))
        · rcases mem_insertIntoChildren h with h | ⟨c', hc', h⟩ | h
          · exact Or.inl h
          · exact Or.inr (Or.inl ⟨c', List.mem_cons_of_mem c hc', h⟩)
          · exact Or.inr (Or.inr (List.mem_cons_of_mem c h))

theorem minSeqOk_newNode {T : Type} (part : Part) :
    MinSeqOk (newNode part : PrefixTreeNode T) := by
  refine MinSeqOk.mk ?_ ?_
  · rw [allPatterns_newNode]; intro it h; cases h
  · unfold newNode; cases part.type <;> (intro c h; cases h)

/-- Insertion preserves the `minSequence` invariant at every node, and the
updated root's `minSequence` is bounded by both the old bound and the new
item's sequence. -/
theorem minSeqOk_addPatternToTree {T : Type} :
    ∀ (parts : List Part) (node : PrefixTreeNode T) (item : Item T),
      MinSeqOk node → MinSeqOk (addPatternToTree node parts item)
  | parts, node, item, hn => by
      have hmin :
          (if item.sequence < node.minSequence then item.sequence
            else node.minSequence) ≤ item.sequence ∧
          (if item.sequence < node.minSequence then item.sequence
            else node.minSequence) ≤ node.minSequence := by
        split
        · exact ⟨Nat.le_refl _, Nat.le_of_lt (by assumption)⟩
        · exact ⟨Nat.le_of_not_lt (by assumption), Nat.le_refl _⟩
      cases parts with
      | nil =>
          rw [addPatternToTree_nil]
          refine MinSeqOk.mk ?_ ?_
          · intro it hit
            rw [allPatterns_node] at hit
            simp only [PrefixTreeNode.patterns, PrefixTreeNode.children,
              PrefixTreeNode.minSequence] at hit ⊢
            rcases List.mem_append.1 hit with h | h
            · rcases List.mem_append.1 h with h | h
              · exact Nat.le_trans hmin.2 (hn.bound it (by
                  rw [allPatterns_node]; exact List.mem_append_left _ h))
              · rw [List.mem_singleton.1 h]; exact hmin.1
            · exact Nat.le_trans hmin.2 (hn.bound it (by
                rw [allPatterns_node]; exact List.mem_append_right _ h))
          · intro c hc
            simp only [PrefixTreeNode.children] at hc
            exact hn.childMin hc
      | cons part rest =>
          rw [addPatternToTree_cons]
          refine MinSeqOk.mk ?_ ?_
          · intro it hit
            rw [allPatterns_node] at hit
            simp only [PrefixTreeNode.patterns, PrefixTreeNode.children,
              PrefixTreeNode.minSequence] at hit ⊢
            rcases List.mem_append.1 hit with h | h
            · exact Nat.le_trans hmin.2 (hn.bound it (by
                rw [allPatterns_node]; exact List.mem_append_left _ h))
            · have hperm := allPatternsList_insertIntoChildren part
                (fun c => addPatternToTree c rest item)
                (addPatternToTree (newNode part) rest item) item
                (fun c => allPatterns_addPatternToTree rest c item)
                (by simpa [allPatterns_newNode] using
                  allPatterns_addPatternToTree rest (newNode part) item)
                node.children
              rcases List.mem_cons.1 (hperm.mem_iff.1 h) with h | h
              · rw [h]; exact hmin.1
              · exact Nat.le_trans hmin.2 (hn.bound it (by
                  rw [allPatterns_node]; exact List.mem_append_right _ h))
          · intro c hc
            simp only [PrefixTreeNode.children] at hc
            rcases mem_insertIntoChildren hc with h | ⟨c', hc', h⟩ | h
            · rw [h]
              exact minSeqOk_addPatternToTree rest (newNode part) item
                (minSeqOk_newNode part)
            · rw [h]
              exact minSeqOk_addPatternToTree rest c' item (hn.childMin hc')
            · exact hn.childMin h

/-- The state built by registering a list of (parts, handle, payload)
triples in order. -/
def buildState {T : Type} (regs : List (List Part × Nat × T)) : ListState T :=
  regs.foldl (fun st r => (addPattern st (.ok r.1) r.2.1 r.2.2).2) (emptyState T)

theorem minSeqOk_buildState {T : Type} (regs : List (List Part × Nat × T)) :
    MinSeqOk (buildState regs).root := by
  suffices h : ∀ (st : ListState T), MinSeqOk st.root →
      MinSeqOk (regs.foldl
        (fun st r => (addPattern st (.ok r.1) r.2.1 r.2.2).2) st).root by
    refine h (emptyState T) ?_
    refine MinSeqOk.mk ?_ ?_
    · intro it hit; cases hit
    · intro c hc; cases hc
  induction regs with
  | nil => intro st h; exact h
  | cons r rest ih =>
      intro st h
      exact ih _ (minSeqOk_addPatternToTree r.1 st.root
        ⟨st.sequenceCounter, r.2.1, r.2.2⟩ h)

/-- C3: after any sequence of `addPattern` calls, every node `N` reachable
from the root satisfies `minSequence(N) ≤ sequence(p)` for every pattern `p`
stored at `N` or anywhere in `N`'s subtree. -/
theorem c3_minSequence_invariant {T : Type} (regs : List (List Part × Nat × T))
    (n : PrefixTreeNode T) (h : Reachable (buildState regs).root n) :
    ∀ it ∈ allPatterns n, n.minSequence ≤ it.sequence := by
  have hroot := minSeqOk_buildState regs
  have : ∀ a b : PrefixTreeNode T, Reachable a b → MinSeqOk a → MinSeqOk b := by
    intro a b hr
    induction hr with
    | refl => exact id
    | child hc _ ih => exact fun ha => ih (ha.childMin hc)
  exact ((this _ _ h) hroot).bound

/-- Witness for C3 at a concrete registration list, the reachable root and
the concrete registered item. -/
theorem c3_minSequence_invariant_witness :
    (buildState [(exPartsA, 0, "A")]).root.minSequence ≤
      (⟨0, 0, "A"⟩ : Item String).sequence :=
  c3_minSequence_invariant [(exPartsA, 0, "A")] _ (Reachable.refl _)
    ⟨0, 0, "A"⟩ (by decide)

/-! ### C4: structural sharing -/

/-- Structural equivalence of parts (spec §3): equality of kind, component,
modifier, value, prefix and suffix - the capture name is ignored. -/
def partStructEquiv (p q : Part) : Prop :=
  p.type = q.type ∧ p.urlComponentType = q.urlComponentType ∧
  p.modifier = q.modifier ∧ p.value = q.value ∧ p.pfx = q.pfx ∧
  p.suffix = q.suffix

/-- Structural equivalence of tree nodes: agreement on the component tag and
on all kind-specific matching data (kind, modifier, value, prefix, suffix). -/
def nodeStructEquiv {T : Type} (a b : PrefixTreeNode T) : Prop :=
  a.urlComponentType = b.urlComponentType ∧ a.kind = b.kind

theorem addPatternToTree_kind {T : Type} (n : PrefixTreeNode T)
    (parts : List Part) (item : Item T) :
    (addPatternToTree n parts item).kind = n.kind := by
  cases parts with
  | nil => rw [addPatternToTree_nil]; rfl
  | cons p rest => rw [addPatternToTree_cons]; rfl

theorem addPatternToTree_uct {T : Type} (n : PrefixTreeNode T)
    (parts : List Part) (item : Item T) :
    (addPatternToTree n parts item).urlComponentType = n.urlComponentType := by
  cases parts with
  | nil => rw [addPatternToTree_nil]; rfl
  | cons p rest => rw [addPatternToTree_cons]; rfl

theorem newNode_uct {T : Type} (part : Part) :
    (newNode part : PrefixTreeNode T).urlComponentType = part.urlComponentType := by
  unfold newNode; cases part.type <;> rfl

theorem newNode_kind_ne_root {T : Type} (part : Part) :
    (newNode part : PrefixTreeNode T).kind ≠ NodeKind.root := by
  unfold newNode; cases part.type <;> simp [PrefixTreeNode.kind]

/-- `matchesPart` reads only the node's kind data and component tag. -/
theorem matchesPart_congr_node {T : Type} {a b : PrefixTreeNode T}
    (h : nodeStructEquiv a b) (part : Part) :
    matchesPart a part = matchesPart b part := by
  unfold matchesPart
  rw [h.1, h.2]

/-- `matchesPart` reads only the structural tuple of the part: structurally
equivalent parts (capture names may differ) are accepted by the same nodes. -/
theorem matchesPart_congr_part {T : Type} (c : PrefixTreeNode T) {p q : Part}
    (h : partStructEquiv p q) : matchesPart c p = matchesPart c q := by
  obtain ⟨h1, h2, h3, h4, h5, h6⟩ := h
  unfold matchesPart
  cases c.kind <;> simp [h1, h2, h3, h4, h5, h6]

theorem matchesPart_newNode_self {T : Type} (part : Part) :
    matchesPart (newNode part : PrefixTreeNode T) part = true := by
  unfold matchesPart newNode
  cases h : part.type <;> simp [h, PrefixTreeNode.kind, PrefixTreeNode.urlComponentType]

/-- For a non-root node, reusability of the node for a part is exactly
structural equivalence with the node a fresh construction would produce. -/
theorem matchesPart_iff_equiv_newNode {T : Type} (c : PrefixTreeNode T)
    (hnr : c.kind ≠ NodeKind.root) (part : Part) :
    matchesPart c part = true ↔ nodeStructEquiv c (newNode part : PrefixTreeNode T) := by
  cases c with
  | mk u k ms pats cs =>
    simp only [PrefixTreeNode.kind] at hnr
    cases k with
    | root => exact absurd rfl hnr
    | fixed v m =>
        cases hp : part.type <;>
          (simp [matchesPart, newNode, nodeStructEquiv, hp, PrefixTreeNode.kind,
            PrefixTreeNode.urlComponentType]; try tauto)
    | wildcard m px sx =>
        cases hp : part.type <;>
          (simp [matchesPart, newNode, nodeStructEquiv, hp, PrefixTreeNode.kind,
            PrefixTreeNode.urlComponentType]; try tauto)
    | fullWildcard m =>
        cases hp : part.type <;>
          (simp [matchesPart, newNode, nodeStructEquiv, hp, PrefixTreeNode.kind,
            PrefixTreeNode.urlComponentType]; try tauto)
    | regex r =>
        cases hp : part.type <;>
          (simp [matchesPart, newNode, nodeStructEquiv, hp, PrefixTreeNode.kind,
            PrefixTreeNode.urlComponentType]; try tauto)

/-- The invariant that children of every node in the subtree are pairwise
structurally non-equivalent (and never root nodes, which only the
constructor creates). -/
inductive ChildrenOk {T : Type} : PrefixTreeNode T → Prop where
  | mk {n : PrefixTreeNode T} :
      n.children.Pairwise (fun a b => ¬ nodeStructEquiv a b) →
      (∀ c ∈ n.children, c.kind ≠ NodeKind.root) →
      (∀ c ∈ n.children, ChildrenOk c) →
      ChildrenOk n

theorem ChildrenOk.pairwise {T : Type} {n : PrefixTreeNode T} (h : ChildrenOk n) :
    n.children.Pairwise (fun a b => ¬ nodeStructEquiv a b) := by
  cases h with | mk hp _ _ => exact hp

theorem ChildrenOk.nonroot {T : Type} {n : PrefixTreeNode T} (h : ChildrenOk n) :
    ∀ c ∈ n.children, c.kind ≠ NodeKind.root := by
  cases h with | mk _ hr _ => exact hr

theorem ChildrenOk.childOk {T : Type} {n c : PrefixTreeNode T} (h : ChildrenOk n)
    (hc : c ∈ n.children) : ChildrenOk c := by
  cases h with | mk _ _ hcs => exact hcs c hc

theorem childrenOk_newNode {T : Type} (part : Part) :
    ChildrenOk (newNode part : PrefixTreeNode T) := by
  have h : (newNode part : PrefixTreeNode T).children = [] := by
    unfold newNode; cases part.type <;> rfl
  refine ChildrenOk.mk ?_ ?_ ?_ <;> rw [h]
  · exact List.Pairwise.nil
  · intro c hc; cases hc
  · intro c hc; cases hc

/-- Insertion preserves pairwise structural distinctness of children
everywhere in the tree: a new child node is only appended when no existing
child is reusable for the part, i.e. when no existing child is structurally
equivalent to the node the part constructs. -/
theorem childrenOk_addPatternToTree {T : Type} :
    ∀ (parts : List Part) (node : PrefixTreeNode T) (item : Item T),
      ChildrenOk node → ChildrenOk (addPatternToTree node parts item)
  | [], node, item, hn => by
      rw [addPatternToTree_nil]
      refine ChildrenOk.mk ?_ ?_ ?_ <;>
        simp only [PrefixTreeNode.children] <;>
        first
          | exact hn.pairwise
          | exact hn.nonroot
          | exact fun c hc => hn.childOk hc
  | part :: rest, node, item, hn => by
      rw [addPatternToTree_cons]
      have hupd : ∀ c : PrefixTreeNode T,
          nodeStructEquiv (addPatternToTree c rest item) c :=
        fun c => ⟨addPatternToTree_uct c rest item, addPatternToTree_kind c rest item⟩
      have hfreshEquiv : nodeStructEquiv
          (addPatternToTree (newNode part) rest item)
          (newNode part : PrefixTreeNode T) :=
        hupd (newNode part)
      have hequiv_trans : ∀ a b c : PrefixTreeNode T,
          nodeStructEquiv a b → nodeStructEquiv b c → nodeStructEquiv a c :=
        fun a b c h1 h2 => ⟨h1.1.trans h2.1, h1.2.trans h2.2⟩
      have hequiv_symm : ∀ a b : PrefixTreeNode T,
          nodeStructEquiv a b → nodeStructEquiv b a :=
        fun a b h => ⟨h.1.symm, h.2.symm⟩
      have hmain : ∀ cs : List (PrefixTreeNode T),
          cs.Pairwise (fun a b => ¬ nodeStructEquiv a b) →
          (∀ c ∈ cs, c.kind ≠ NodeKind.root) →
          (∀ c ∈ cs, ChildrenOk c) →
          (insertIntoChildren part (fun c => addPatternToTree c rest item)
            (addPatternToTree (newNode part) rest item) cs).Pairwise
              (fun a b => ¬ nodeStructEquiv a b) ∧
          (∀ c ∈ insertIntoChildren part (fun c => addPatternToTree c rest item)
            (addPatternToTree (newNode part) rest item) cs,
              c.kind ≠ NodeKind.root) ∧
          (∀ c ∈ insertIntoChildren part (fun c => addPatternToTree c rest item)
            (addPatternToTree (newNode part) rest item) cs, ChildrenOk c) := by
        intro cs
        induction cs with
        | nil =>
            intro _ _ _
            refine ⟨List.pairwise_singleton _ _, ?_, ?_⟩
            · intro c hc
              rw [List.mem_singleton.1 hc, hfreshEquiv.2]
              exact newNode_kind_ne_root part
            · intro c hc
              rw [List.mem_singleton.1 hc]
              exact childrenOk_addPatternToTree rest (newNode part) item
                (childrenOk_newNode part)
        | cons c cs ih =>
            intro hpw hnr hok
            rw [List.pairwise_cons] at hpw
            unfold insertIntoChildren
            split
            · -- the head child is reused
              refine ⟨List.pairwise_cons.2 ⟨?_, hpw.2⟩, ?_, ?_⟩
              · intro b hb hb2
                exact hpw.1 b hb
                  (hequiv_trans _ _ _ (hequiv_symm _ _ (hupd c)) hb2)
              · intro d hd
                rcases List.mem_cons.1 hd with h | h
                · rw [h, (hupd c).2]
                  exact hnr c (List.mem_cons_self c cs)
                · exact hnr d (List.mem_cons_of_mem c h)
              · intro d hd
                rcases List.mem_cons.1 hd with h | h
                · rw [h]
                  exact childrenOk_addPatternToTree rest c item
                    (hok c (List.mem_cons_self c cs))
                · exact hok d (List.mem_cons_of_mem c h)
            · -- the head child is kept, insertion continues in the tail
              rename_i hnm
              obtain ⟨ihpw, ihnr, ihok⟩ := ih hpw.2
                (fun d hd => hnr d (List.mem_cons_of_mem c hd))
                (fun d hd => hok d (List.mem_cons_of_mem c hd))
              refine ⟨List.pairwise_cons.2 ⟨?_, ihpw⟩, ?_, ?_⟩
              · intro b hb hb2
                rcases mem_insertIntoChildren hb with h | ⟨c', hc', h⟩ | h
                · -- b is the fresh subtree: c would have been reused
                  apply hnm
                  rw [matchesPart_iff_equiv_newNode c
                    (hnr c (List.mem_cons_self c cs)) part]
                  exact hequiv_trans _ _ _ hb2 (h ▸ hfreshEquiv)
                · exact hpw.1 c' hc'
                    (hequiv_trans _ _ _ hb2 (h ▸ hupd c'))
                · exact hpw.1 b h hb2
              · intro d hd
                rcases List.mem_cons.1 hd with h | h
                · rw [h]; exact hnr c (List.mem_cons_self c cs)
                · exact ihnr d h
              · intro d hd
                rcases List.mem_cons.1 hd with h | h
                · rw [h]; exact hok c (List.mem_cons_self c cs)
                · exact ihok d h
      refine ChildrenOk.mk ?_ ?_ ?_ <;> simp only [PrefixTreeNode.children]
      · exact (hmain node.children hn.pairwise hn.nonroot
          (fun c hc => hn.childOk hc)).1
      · exact (hmain node.children hn.pairwise hn.nonroot
          (fun c hc => hn.childOk hc)).2.1
      · intro c hc
        exact (hmain node.children hn.pairwise hn.nonroot
          (fun c hc => hn.childOk hc)).2.2 c hc

theorem childrenOk_buildState {T : Type} (regs : List (List Part × Nat × T)) :
    ChildrenOk (buildState regs).root := by
  suffices h : ∀ (st : ListState T), ChildrenOk st.root →
      ChildrenOk (regs.foldl
        (fun st r => (addPattern st (.ok r.1) r.2.1 r.2.2).2) st).root by
    refine h (emptyState T) ?_
    refine ChildrenOk.mk List.Pairwise.nil ?_ ?_ <;> (intro c hc; cases hc)
  induction regs with
  | nil => intro st h; exact h
  | cons r rest ih =>
      intro st h
      exact ih _ (childrenOk_addPatternToTree r.1 st.root
        ⟨st.sequenceCounter, r.2.1, r.2.2⟩ h)

/-- The index of the child that `#getOrCreateChildNode` picks for a part:
the first reusable child, or the append position (the list length) when a
new node is created. -/
def childIdx {T : Type} (part : Part) : List (PrefixTreeNode T) → Nat
  | [] => 0
  | c :: rest => if matchesPart c part then 0 else childIdx part rest + 1

/-- The child node (before its update) that the insertion descends into for
a part: the first reusable child, or the freshly constructed node. -/
def chooseChild {T : Type} (part : Part) :
    List (PrefixTreeNode T) → PrefixTreeNode T
  | [] => newNode part
  | c :: rest => if matchesPart c part then c else chooseChild part rest

/-- The sequence of child indices an insertion walks through: one index per
part, from the given node downwards. -/
def insertTrace {T : Type} : PrefixTreeNode T → List Part → List Nat
  | _, [] => []
  | node, part :: rest =>
      childIdx part node.children ::
        insertTrace (chooseChild part node.children) rest

/-- Coherence of the trace with the insertion: the updated subtree produced
by `insertIntoChildren` sits exactly at the traced child index, and it is
the update of the traced child. -/
theorem insertIntoChildren_at_childIdx {T : Type} (part : Part)
    (upd : PrefixTreeNode T → PrefixTreeNode T) :
    ∀ cs : List (PrefixTreeNode T),
      (insertIntoChildren part upd (upd (newNode part)) cs).get?
        (childIdx part cs) = some (upd (chooseChild part cs))
  | [] => by simp [insertIntoChildren, childIdx, chooseChild]
  | c :: rest => by
      unfold insertIntoChildren childIdx chooseChild
      by_cases h : matchesPart c part <;> simp [h]
      simpa using insertIntoChildren_at_childIdx part upd rest

/-- One level of the shared-prefix argument: inserting a part list whose head
is structurally equivalent to the part just inserted walks to the same child
index, and the node it descends into is the updated version of the node the
first insertion descended into. -/
theorem insert_step {T : Type} {p1 p2 : Part} (h : partStructEquiv p1 p2)
    (r1 : List Part) (item : Item T) :
    ∀ cs : List (PrefixTreeNode T),
      childIdx p2 (insertIntoChildren p1 (fun c => addPatternToTree c r1 item)
        (addPatternToTree (newNode p1) r1 item) cs) = childIdx p1 cs ∧
      chooseChild p2 (insertIntoChildren p1 (fun c => addPatternToTree c r1 item)
        (addPatternToTree (newNode p1) r1 item) cs) =
        addPatternToTree (chooseChild p1 cs) r1 item
  | [] => by
      have hm : matchesPart (addPatternToTree (newNode p1) r1 item) p2 = true := by
        rw [matchesPart_congr_node
          ⟨addPatternToTree_uct (newNode p1) r1 item,
            addPatternToTree_kind (newNode p1) r1 item⟩ p2,
          ← matchesPart_congr_part (newNode p1) h]
        exact matchesPart_newNode_self p1
      simp [insertIntoChildren, childIdx, chooseChild, hm]
  | c :: rest => by
      have hcongr : matchesPart c p2 = matchesPart c p1 :=
        (matchesPart_congr_part c h).symm
      unfold insertIntoChildren
      by_cases hm : matchesPart c p1
      · have hm2 : matchesPart (addPatternToTree c r1 item) p2 = true := by
          rw [matchesPart_congr_node
            ⟨addPatternToTree_uct c r1 item, addPatternToTree_kind c r1 item⟩ p2,
            hcongr]
          exact hm
        simp [hm, hm2, childIdx, chooseChild]
      · have hm2 : matchesPart c p2 = false := by
          rw [hcongr]; exact Bool.of_not_eq_true hm
        obtain ⟨ih1, ih2⟩ := insert_step h r1 item rest
        simp [hm, hm2, childIdx, chooseChild, ih1, ih2]

/-- Two insertions whose part lists agree structurally on a prefix traverse
the same child indices along that prefix. -/
theorem insertTrace_take_shared {T : Type} :
    ∀ (k : Nat) (ps1 ps2 : List Part) (t : PrefixTreeNode T) (item : Item T),
      List.Forall₂ partStructEquiv (ps1.take k) (ps2.take k) →
      (insertTrace (addPatternToTree t ps1 item) ps2).take k =
        (insertTrace t ps1).take k
  | 0, _, _, _, _, _ => by simp
  | k + 1, [], ps2, t, item, hf => by
      rw [List.take_nil] at hf
      cases hf2 : ps2.take (k + 1) with
      | cons p rest => rw [hf2] at hf; cases hf
      | nil =>
          have : ps2 = [] := by
            cases ps2 with
            | nil => rfl
            | cons a b => simp at hf2
          subst this
          simp [insertTrace]
  | k + 1, p1 :: r1, [], t, item, hf => by
      rw [List.take_nil, List.take_succ_cons] at hf
      cases hf
  | k + 1, p1 :: r1, p2 :: r2, t, item, hf => by
      rw [List.take_succ_cons, List.take_succ_cons] at hf
      cases hf with
      | cons hpq hrest =>
        rw [addPatternToTree_cons]
        show (childIdx p2 (insertIntoChildren p1
            (fun c => addPatternToTree c r1 item)
            (addPatternToTree (newNode p1) r1 item) t.children) ::
          insertTrace (chooseChild p2 (insertIntoChildren p1
            (fun c => addPatternToTree c r1 item)
            (addPatternToTree (newNode p1) r1 item) t.children)) r2).take (k + 1) =
          (childIdx p1 t.children ::
            insertTrace (chooseChild p1 t.children) r1).take (k + 1)
        obtain ⟨h1, h2⟩ := insert_step hpq r1 item t.children
        rw [List.take_succ_cons, List.take_succ_cons, h1, h2]
        rw [insertTrace_take_shared k r1 r2 (chooseChild p1 t.children) item hrest]

/-- C4: (a) after any sequence of `addPattern` calls the children of every
reachable node are pairwise structurally non-equivalent (kind, component,
modifier, value, prefix, suffix compared; capture names ignored); (b) two
registrations whose part lists agree structurally on a length-`k` prefix
traverse exactly the same child indices - hence the same nodes - along that
common prefix. -/
theorem c4_structural_sharing {T : Type} :
    (∀ (regs : List (List Part × Nat × T)) (n : PrefixTreeNode T),
      Reachable (buildState regs).root n →
      n.children.Pairwise (fun a b => ¬ nodeStructEquiv a b)) ∧
    (∀ (k : Nat) (ps1 ps2 : List Part) (t : PrefixTreeNode T) (item : Item T),
      List.Forall₂ partStructEquiv (ps1.take k) (ps2.take k) →
      (insertTrace (addPatternToTree t ps1 item) ps2).take k =
        (insertTrace t ps1).take k) := by
  constructor
  · intro regs n h
    have htrans : ∀ a b : PrefixTreeNode T,
        Reachable a b → ChildrenOk a → ChildrenOk b := by
      intro a b hr
      induction hr with
      | refl => exact id
      | child hc _ ih => exact fun ha => ih (ha.childOk hc)
    exact (htrans _ _ h (childrenOk_buildState regs)).pairwise
  · exact insertTrace_take_shared

/-- Witness for C4 at concrete inputs: the root of a one-registration index,
and two one-part lists that differ only in the capture name. -/
theorem c4_structural_sharing_witness :
    ((buildState [(exPartsA, 0, "A")]).root.children.Pairwise
      (fun a b => ¬ nodeStructEquiv a b)) ∧
    (insertTrace (addPatternToTree (emptyRoot String) exPartsB
        ⟨0, 0, "B"⟩) exPartsB).take 1 =
      (insertTrace (emptyRoot String) exPartsB).take 1 :=
  ⟨(c4_structural_sharing.1) [(exPartsA, 0, "A")] _ (Reachable.refl _),
   (c4_structural_sharing.2) 1 exPartsB exPartsB (emptyRoot String) ⟨0, 0, "B"⟩
     (by
       show List.Forall₂ partStructEquiv
         (exPartsB.take 1) (exPartsB.take 1)
       exact List.Forall₂.cons ⟨rfl, rfl, rfl, rfl, rfl, rfl⟩ List.Forall₂.nil)⟩

/-! ### C6: behaviour on an unresolvable URL string -/

/-- C6 counterexample: the claim says an unresolvable string makes `match`
return `none` without raising.  In `URLPatternList.match` the call
`new URL(url, baseUrl)` at line 1156 of `index.ts` is not guarded by any
`try`/`catch`, so the resolver's `TypeError` propagates to the caller: on a
relative string with no base the call raises and does not return `none`. -/
theorem c6_counterexample_match_raises :
    matchTop resolveFailing allTrueTest execHandle noRegexTest exState
        (Sum.inl "/a") none = .error "TypeError" ∧
    matchTop resolveFailing allTrueTest execHandle noRegexTest exState
        (Sum.inl "/a") none ≠ .ok none := by
  constructor
  · rfl
  · intro h; cases h

/-- C6 (amended): for every string input whose resolution against the given
base fails, `match` propagates the resolver's error unchanged (it raises);
it does not return `none`. -/
theorem c6_unresolvable_url_propagates_error {T R : Type}
    (resolve : String → Option String → Except String URLRecord)
    (test : Nat → String → Option String → Bool)
    (exec : Nat → String → Option String → Option R)
    (regexTest : List Char → List Char → Bool)
    (st : ListState T) (url : String) (base : Option String) (e : String)
    (h : resolve url base = .error e) :
    matchTop resolve test exec regexTest st (Sum.inl url) base = .error e := by
  simp [matchTop, h]

/-- Witness for the amended C6 at a concrete failing resolution. -/
theorem c6_unresolvable_url_propagates_error_witness :
    resolveFailing "/a" none = .error "TypeError" ∧
    matchTop resolveFailing allTrueTest execHandle noRegexTest exState
      (Sum.inl "/a") none = .error "TypeError" :=
  ⟨rfl, c6_unresolvable_url_propagates_error resolveFailing allTrueTest
    execHandle noRegexTest exState "/a" none "TypeError" rfl⟩

/-! ### C9: `match` never mutates the index -/

/-- `URLPatternList.match` with the receiver's state threaded explicitly.
The source method (and every node `match` / `tryPatternsAndChildren` it
calls) only reads `this.#root` and the tree fields; no assignment to
`minSequence`, `patterns`, `children` or `#sequenceCounter` occurs anywhere
on the match path, so the state handed back is the state received. -/
def matchTopSt {T R : Type} (resolve : String → Option String → Except String URLRecord)
    (test : Nat → String → Option String → Bool)
    (exec : Nat → String → Option String → Option R)
    (regexTest : List Char → List Char → Bool)
    (st : ListState T) (input : String ⊕ URLRecord) (base : Option String) :
    Except String (Option (R × T)) × ListState T :=
  (matchTop resolve test exec regexTest st input base, st)

/-- C9: for every state and input, the tree (root node with all its
children, patterns and `minSequence` values) and the sequence counter after
a `match` call are exactly those before the call. -/
theorem c9_match_is_readonly {T R : Type}
    (resolve : String → Option String → Except String URLRecord)
    (test : Nat → String → Option String → Bool)
    (exec : Nat → String → Option String → Option R)
    (regexTest : List Char → List Char → Bool)
    (st : ListState T) (input : String ⊕ URLRecord) (base : Option String) :
    (matchTopSt resolve test exec regexTest st input base).2.root = st.root ∧
    (matchTopSt resolve test exec regexTest st input base).2.sequenceCounter =
      st.sequenceCounter :=
  ⟨rfl, rfl⟩

/-! ### C10: every candidate the walk returns was confirmed by the evaluator -/

theorem tryPatternsLoop_sound {T : Type}
    {test : Nat → String → Option String → Bool} {url : String}
    {base : Option String} :
    ∀ {pats : List (Item T)} {best : Option (Item T)},
      (∀ it, best = some it → callTest test it.pattern url base = true) →
      ∀ {it : Item T}, tryPatternsLoop test url base pats best = some it →
        callTest test it.pattern url base = true
  | [], best, hb, it, h => hb it h
  | item :: rest, best, hb, it, h => by
      cases best with
      | some b =>
          simp only [tryPatternsLoop] at h
          split at h
          · exact tryPatternsLoop_sound hb h
          · split at h
            · split at h
              · rename_i hacc _
                exact tryPatternsLoop_sound
                  (fun it' h' => by rw [(Option.some.inj h').symm]; exact hacc) h
              · exact tryPatternsLoop_sound hb h
            · exact tryPatternsLoop_sound hb h
      | none =>
          simp only [tryPatternsLoop] at h
          split at h
          · rename_i hacc
            exact tryPatternsLoop_sound
              (fun it' h' => by rw [(Option.some.inj h').symm]; exact hacc) h
          · exact tryPatternsLoop_sound (fun it' h' => by cases h') h

theorem tryChildrenGo_sound {T : Type}
    {test : Nat → String → Option String → Bool}
    {recMatch : PrefixTreeNode T → Nat → Nat → Option (Option (Item T))}
    {comps : List URLComponent} {aci apos : Nat} {url : String}
    {base : Option String}
    (hrec : ∀ c ci' pos' it, recMatch c ci' pos' = some (some it) →
      callTest test it.pattern url base = true) :
    ∀ {cs : List (PrefixTreeNode T)} {best : Option (Item T)},
      (∀ it, best = some it → callTest test it.pattern url base = true) →
      ∀ {r : Option (Item T)},
        tryChildrenGo recMatch comps aci apos cs best = some r →
        ∀ it, r = some it → callTest test it.pattern url base = true
  | [], best, hb, r, h => by
      unfold tryChildrenGo at h
      rw [← Option.some.inj h]; exact hb
  | c :: rest, best, hb, r, h => by
      unfold tryChildrenGo at h
      split at h
      · exact tryChildrenGo_sound hrec hb h
      · split at h
        · exact tryChildrenGo_sound hrec hb h
        · split at h
          · exact absurd h (by simp)
          · rename_i m hm
            refine tryChildrenGo_sound hrec ?_ h
            cases m with
            | none => exact hb
            | some mi =>
                cases best with
                | none =>
                    intro it' h'
                    rw [← Option.some.inj h']
                    exact hrec c _ _ mi hm
                | some b =>
                    intro it' h'
                    simp only [betterCandidate] at h'
                    split at h'
                    · rw [← Option.some.inj h']
                      exact hrec c _ _ mi hm
                    · rw [← Option.some.inj h']; exact hb b rfl

theorem tryPatternsAndChildren_sound {T : Type}
    {test : Nat → String → Option String → Bool}
    {recMatch : PrefixTreeNode T → Nat → Nat → Option (Option (Item T))}
    {pats : List (Item T)} {childs : List (PrefixTreeNode T)}
    {comps : List URLComponent} {ci pos : Nat} {url : String}
    {base : Option String}
    (hrec : ∀ c ci' pos' it, recMatch c ci' pos' = some (some it) →
      callTest test it.pattern url base = true)
    {it : Item T}
    (h : tryPatternsAndChildren test recMatch pats childs comps ci pos url base =
      some (some it)) :
    callTest test it.pattern url base = true := by
  unfold tryPatternsAndChildren at h
  split at h
  · exact absurd h (by simp)
  · rename_i best hcs
    have hbest := tryChildrenGo_sound hrec (fun it' h' => by cases h') hcs
    split at h
    · exact tryPatternsLoop_sound hbest (Option.some.inj h)
    · exact hbest it (Option.some.inj h)

theorem tryPositionsGo_sound {T : Type}
    {test : Nat → String → Option String → Bool}
    {recMatch : PrefixTreeNode T → Nat → Nat → Option (Option (Item T))}
    {pats : List (Item T)} {childs : List (PrefixTreeNode T)}
    {comps : List URLComponent} {ci : Nat} {url : String} {base : Option String}
    (hrec : ∀ c ci' pos' it, recMatch c ci' pos' = some (some it) →
      callTest test it.pattern url base = true) :
    ∀ {ps : List Nat} {it : Item T},
      tryPositionsGo test recMatch pats childs comps ci url base ps =
        some (some it) →
      callTest test it.pattern url base = true
  | [], it, h => by cases h
  | p :: rest, it, h => by
      unfold tryPositionsGo at h
      cases hp : tryPatternsAndChildren test recMatch pats childs comps ci p
          url base with
      | none => rw [hp] at h; cases h
      | some m =>
          rw [hp] at h
          cases m with
          | none => exact tryPositionsGo_sound hrec h
          | some z =>
              have : z = it := by
                simpa using h
              exact tryPatternsAndChildren_sound hrec (this ▸ hp)

theorem attemptThen_cases {T : Type} {x y : Option (Option (Item T))}
    {it : Item T} (h : attemptThen x y = some (some it)) :
    x = some (some it) ∨ y = some (some it) := by
  unfold attemptThen at h
  cases x with
  | none => cases h
  | some m =>
      cases m with
      | none => exact Or.inr h
      | some z => exact Or.inl (by simpa using h)

set_option maxHeartbeats 3200000 in
/-- Every hit the recursive walk reports was confirmed: an item becomes (or
replaces) the best candidate only in the patterns-at-node loop, immediately
after its `test` on the full URL returned `true`. -/
theorem nodeMatchF_sound {T : Type} {test : Nat → String → Option String → Bool}
    {regexTest : List Char → List Char → Bool} {comps : List URLComponent}
    {url : String} {base : Option String} :
    ∀ (fuel : Nat) (n : PrefixTreeNode T) (ci pos : Nat) (it : Item T),
      nodeMatchF test regexTest fuel n comps ci pos url base = some (some it) →
      callTest test it.pattern url base = true := by
  intro fuel
  induction fuel with
  | zero =>
      intro n ci pos it h
      exact absurd h (by simp [nodeMatchF])
  | succ f ih =>
      intro n ci pos it h
      have hrm : ∀ (c : PrefixTreeNode T) (ci' pos' : Nat) (it' : Item T),
          nodeMatchF test regexTest f c comps ci' pos' url base =
            some (some it') →
          callTest test it'.pattern url base = true :=
        fun c ci' pos' it' hh => ih c ci' pos' it' hh
      cases n with
      | mk uct kind minSeq pats childs =>
        cases kind
        all_goals simp only [nodeMatchF] at h
        all_goals
          repeat' (first
            | (exact tryPatternsAndChildren_sound hrm h)
            | (exact tryPositionsGo_sound hrm h)
            | (split at h)
            | (injection h with h2; injection h2)
            | (injection h))
        all_goals rcases attemptThen_cases h with h | h
        all_goals
          repeat' (first
            | (exact tryPatternsAndChildren_sound hrm h)
            | (exact tryPositionsGo_sound hrm h)
            | (split at h)
            | (injection h with h2; injection h2))

/-- C10: (a) whenever the internal tree walk reports a candidate, that
candidate's evaluator `test` on the full URL already returned `true` during
the walk; (b) whenever `match` returns a non-null result, it comes from a
walk candidate whose `test` accepted the URL, and `exec` was invoked only on
that already-accepting pattern, its output being the returned result. -/
theorem c10_candidates_confirmed_by_test {T R : Type}
    (test : Nat → String → Option String → Bool)
    (exec : Nat → String → Option String → Option R)
    (regexTest : List Char → List Char → Bool) :
    (∀ (fuel : Nat) (n : PrefixTreeNode T) (comps : List URLComponent)
        (ci pos : Nat) (url : String) (base : Option String) (it : Item T),
      nodeMatchF test regexTest fuel n comps ci pos url base = some (some it) →
      callTest test it.pattern url base = true) ∧
    (∀ (resolve : String → Option String → Except String URLRecord)
        (st : ListState T) (u : URLRecord) (base : Option String) (r : R) (v : T),
      matchTop resolve test exec regexTest st (Sum.inr u) base =
        .ok (some (r, v)) →
      ∃ it : Item T,
        nodeMatchF test regexTest (height st.root) st.root (buildComponents u)
          0 0 u.href base = some (some it) ∧
        callTest test it.pattern u.href base = true ∧
        callExec exec it.pattern u.href base = some r ∧
        it.value = v) := by
  constructor
  · intro fuel n comps ci pos url base it h
    exact nodeMatchF_sound fuel n ci pos it h
  · intro resolve st u base r v h
    simp only [matchTop] at h
    cases hw : nodeMatchF test regexTest (height st.root) st.root
        (buildComponents u) 0 0 u.href base with
    | none => rw [hw] at h; cases h
    | some w =>
        rw [hw] at h
        cases w with
        | none => cases h
        | some item =>
            simp only [Option.getD_some] at h
            cases he : callExec exec item.pattern u.href base with
            | none => rw [he] at h; cases h
            | some r' =>
                rw [he] at h
                injection h with h
                injection h with h
                injection h with h1 h2
                refine ⟨item, rfl, nodeMatchF_sound _ _ _ _ _ hw, ?_, h2⟩
                rw [he, h1]

/-- Witness for C10 on the concrete index of
`c1_tree_disagrees_with_linear_oracle`: the walk returns the item with
sequence 1 and its test is `true`; `match` returns its `exec` output. -/
theorem c10_candidates_confirmed_by_test_witness :
    callTest allTrueTest 1 "https://x/a?q" none = true ∧
    ∃ it : Item String,
      nodeMatchF allTrueTest noRegexTest (height exState.root) exState.root
        (buildComponents exUrl) 0 0 exUrl.href none = some (some it) ∧
      callTest allTrueTest it.pattern exUrl.href none = true ∧
      callExec execHandle it.pattern exUrl.href none = some 1 ∧
      it.value = "B" :=
  ⟨(@c10_candidates_confirmed_by_test String Nat allTrueTest execHandle
      noRegexTest).1 (height exState.root) exState.root (buildComponents exUrl)
      0 0 "https://x/a?q" none ⟨1, 1, "B"⟩ rfl,
   (c10_candidates_confirmed_by_test allTrueTest execHandle noRegexTest).2
      resolveFailing exState exUrl none 1 "B" rfl⟩

/-! ### C8: FullWildcard consumption order for zero-match modifiers -/

/-- The attempt list described by the claim for a FullWildcard node with a
zero-match modifier: zero consumption first; then, with no children, the
whole rest of the component in one step; with children, every consumption
length from the longest (the whole remainder) down to the shortest. -/
def fullWildcardClaimAttempts (valueLen pos : Nat) (hasChildren : Bool) :
    List Nat :=
  pos ::
    (if hasChildren then
      (List.range (valueLen - pos + 1)).reverse.map (fun k => pos + k)
    else [valueLen])

/-- C8: for a FullWildcard node whose modifier is Optional, ZeroOrMore or
OneOrMore (and whose component tag matches the current component), the
node's `match` returns exactly the first successful result of attempting
`tryPatternsAndChildren` at the claim's attempt positions in order: zero
consumption, then (no children) the end of the component in one step, or
(with children) every consumption length from longest down to shortest. -/
theorem c8_fullWildcard_zero_match_order {T : Type}
    (test : Nat → String → Option String → Bool)
    (regexTest : List Char → List Char → Bool) (fuel : Nat)
    (uct : UrlComponentType) (m : Modifier) (minSeq : Nat)
    (pats : List (Item T)) (childs : List (PrefixTreeNode T))
    (comps : List URLComponent) (ci pos : Nat) (url : String)
    (base : Option String)
    (hm : m = Modifier.optional ∨ m = Modifier.zeroOrMore ∨
      m = Modifier.oneOrMore)
    (htype : (compGet comps ci).type = uct)
    (hpos : pos ≤ (compGet comps ci).value.length) :
    nodeMatchF test regexTest (fuel + 1)
      (.mk uct (.fullWildcard m) minSeq pats childs) comps ci pos url base =
    tryPositionsGo test
      (fun c ci' pos' => nodeMatchF test regexTest fuel c comps ci' pos' url base)
      pats childs comps ci url base
      (fullWildcardClaimAttempts (compGet comps ci).value.length pos
        (!childs.isEmpty)) := by
  simp only [nodeMatchF, htype, ne_eq, not_true_eq_false, if_false,
    fullWildcardClaimAttempts]
  have hzm : (m = Modifier.zeroOrMore ∨ m = Modifier.optional ∨
      m = Modifier.oneOrMore) := by tauto
  rw [if_pos hzm]
  conv_rhs => rw [tryPositionsGo]
  cases hx : tryPatternsAndChildren test
      (fun c ci' pos' => nodeMatchF test regexTest fuel c comps ci' pos' url base)
      pats childs comps ci pos url base with
  | none => simp [attemptThen]
  | some w =>
      cases w with
      | some z => simp [attemptThen]
      | none =>
          simp only [attemptThen]
          by_cases hc : childs.isEmpty
          · simp only [hc, if_true, Bool.not_true, Bool.false_eq_true, if_false]
            conv_rhs => rw [tryPositionsGo]
            rcases Nat.lt_or_ge pos (compGet comps ci).value.length with hlt | hge
            · rw [if_pos hlt]
              generalize tryPatternsAndChildren test
                (fun c ci' pos' => nodeMatchF test regexTest fuel c comps ci'
                  pos' url base)
                pats childs comps ci (compGet comps ci).value.length url base = y
              cases y with
              | none => rfl
              | some w' =>
                  cases w' with
                  | none => simp [tryPositionsGo]
                  | some z => rfl
            · have hEq : (compGet comps ci).value.length = pos :=
                Nat.le_antisymm hge hpos
              rw [if_neg (by omega), hEq, hx]
              simp [tryPositionsGo]
          · simp only [hc, Bool.not_false, if_true, Bool.false_eq_true,
              if_false, if_pos hpos]

/-- Witness for C8 at a concrete FullWildcard node and component. -/
theorem c8_fullWildcard_zero_match_order_witness :
    nodeMatchF allTrueTest noRegexTest 1
      (.mk .pathname (.fullWildcard Modifier.zeroOrMore) 0 [⟨0, 0, "W"⟩] [])
      [⟨"/a".toList, .pathname⟩] 0 0 "u" none =
    tryPositionsGo allTrueTest
      (fun c ci' pos' => nodeMatchF allTrueTest noRegexTest 0 c
        [⟨"/a".toList, .pathname⟩] ci' pos' "u" none)
      [⟨0, 0, "W"⟩] [] [⟨"/a".toList, .pathname⟩] 0 "u" none
      (fullWildcardClaimAttempts
        (compGet [⟨"/a".toList, .pathname⟩] 0).value.length 0
        (!List.isEmpty ([] : List (PrefixTreeNode String)))) :=
  c8_fullWildcard_zero_match_order allTrueTest noRegexTest 0 .pathname
    Modifier.zeroOrMore 0 [⟨0, 0, "W"⟩] [] [⟨"/a".toList, .pathname⟩] 0 0 "u"
    none (Or.inr (Or.inl rfl)) rfl (by decide)

/-! ### C7: termination of `match`

`nodeMatchF` spends exactly one unit of fuel per tree level, and every
backtracking loop at a level iterates over an explicit finite list of
positions, so fuel equal to the tree height makes the walk complete.  The
only way the source can fail to terminate is the greedy repetition loop of
a `Fixed` node with an empty literal - which the parser never produces
(`#flushFixedPart` and `#addPart` only emit non-empty fixed values). -/

/-- Trees whose Fixed nodes all carry a non-empty literal; this holds for
every tree built from parser output. -/
inductive FixedNonempty {T : Type} : PrefixTreeNode T → Prop where
  | mk {n : PrefixTreeNode T} :
      (∀ v m, n.kind = NodeKind.fixed v m → v ≠ []) →
      (∀ c ∈ n.children, FixedNonempty c) →
      FixedNonempty n

theorem FixedNonempty.value {T : Type} {n : PrefixTreeNode T}
    (h : FixedNonempty n) : ∀ v m, n.kind = NodeKind.fixed v m → v ≠ [] := by
  cases h with | mk hv _ => exact hv

theorem FixedNonempty.childWf {T : Type} {n c : PrefixTreeNode T}
    (h : FixedNonempty n) (hc : c ∈ n.children) : FixedNonempty c := by
  cases h with | mk _ hcs => exact hcs c hc

theorem height_child_le {T : Type} :
    ∀ {cs : List (PrefixTreeNode T)} {c : PrefixTreeNode T}, c ∈ cs →
      height c ≤ heightList cs
  | c' :: rest, c, h => by
      rcases List.mem_cons.1 h with h | h
      · rw [h, heightList]; exact Nat.le_max_left _ _
      · rw [heightList]
        exact Nat.le_trans (height_child_le h) (Nat.le_max_right _ _)

theorem tryChildrenGo_complete {T : Type}
    {recMatch : PrefixTreeNode T → Nat → Nat → Option (Option (Item T))}
    {comps : List URLComponent} {aci apos : Nat} :
    ∀ {cs : List (PrefixTreeNode T)},
      (∀ c ∈ cs, ∀ ci' pos', (recMatch c ci' pos').isSome = true) →
      ∀ (best : Option (Item T)),
        (tryChildrenGo recMatch comps aci apos cs best).isSome = true
  | [], _, best => by simp [tryChildrenGo]
  | c :: rest, hrec, best => by
      have hrest : ∀ c' ∈ rest, ∀ ci' pos',
          (recMatch c' ci' pos').isSome = true :=
        fun c' h => hrec c' (List.mem_cons_of_mem c h)
      unfold tryChildrenGo
      split
      · exact tryChildrenGo_complete hrest best
      · split
        · exact tryChildrenGo_complete hrest best
        · cases hm : recMatch c
              (advanceLoop comps c.urlComponentType comps.length aci apos).1
              (advanceLoop comps c.urlComponentType comps.length aci apos).2 with
          | none =>
              have := hrec c (List.mem_cons_self c rest)
                (advanceLoop comps c.urlComponentType comps.length aci apos).1
                (advanceLoop comps c.urlComponentType comps.length aci apos).2
              rw [hm] at this
              cases this
          | some m => exact tryChildrenGo_complete hrest (betterCandidate m best)

theorem tryPatternsAndChildren_complete {T : Type}
    {test : Nat → String → Option String → Bool}
    {recMatch : PrefixTreeNode T → Nat → Nat → Option (Option (Item T))}
    {pats : List (Item T)} {childs : List (PrefixTreeNode T)}
    {comps : List URLComponent} {ci pos : Nat} {url : String}
    {base : Option String}
    (hrec : ∀ c ∈ childs, ∀ ci' pos', (recMatch c ci' pos').isSome = true) :
    (tryPatternsAndChildren test recMatch pats childs comps ci pos url
      base).isSome = true := by
  unfold tryPatternsAndChildren
  split
  · rename_i hnone
    have := @tryChildrenGo_complete T recMatch comps
      (advancedIndex childs comps ci pos).1
      (advancedIndex childs comps ci pos).2 childs hrec none
    rw [hnone] at this
    cases this
  · split <;> simp

theorem tryPositionsGo_complete {T : Type}
    {test : Nat → String → Option String → Bool}
    {recMatch : PrefixTreeNode T → Nat → Nat → Option (Option (Item T))}
    {pats : List (Item T)} {childs : List (PrefixTreeNode T)}
    {comps : List URLComponent} {ci : Nat} {url : String} {base : Option String}
    (hrec : ∀ c ∈ childs, ∀ ci' pos', (recMatch c ci' pos').isSome = true) :
    ∀ ps : List Nat,
      (tryPositionsGo test recMatch pats childs comps ci url base ps).isSome =
        true
  | [] => by simp [tryPositionsGo]
  | p :: rest => by
      unfold tryPositionsGo
      cases hp : tryPatternsAndChildren test recMatch pats childs comps ci p
          url base with
      | none =>
          have := @tryPatternsAndChildren_complete T test recMatch pats childs
            comps ci p url base hrec
          rw [hp] at this
          cases this
      | some m =>
          cases m with
          | none => exact tryPositionsGo_complete hrec rest
          | some z => simp

theorem attemptThen_complete {T : Type} {x y : Option (Option (Item T))}
    (hx : x.isSome = true) (hy : y.isSome = true) :
    (attemptThen x y).isSome = true := by
  unfold attemptThen
  cases x with
  | none => cases hx
  | some m => cases m <;> simp [hy]

set_option maxHeartbeats 3200000 in
/-- Fuel equal to the tree height suffices: the walk always completes, for
any components, position and URL, provided every Fixed node's literal is
non-empty (the greedy repetition loop of `FixedPrefixTreeNode.match` would
loop forever on an empty literal, which the parser cannot produce). -/
theorem nodeMatchF_complete {T : Type} {test : Nat → String → Option String → Bool}
    {regexTest : List Char → List Char → Bool} {comps : List URLComponent}
    {url : String} {base : Option String} :
    ∀ (fuel : Nat) (n : PrefixTreeNode T), FixedNonempty n → height n ≤ fuel →
      ∀ ci pos,
        (nodeMatchF test regexTest fuel n comps ci pos url base).isSome =
          true := by
  intro fuel
  induction fuel with
  | zero =>
      intro n hwf hh ci pos
      cases n with
      | mk u k ms pats cs => rw [height] at hh; omega
  | succ f ih =>
      intro n hwf hh ci pos
      cases n with
      | mk uct kind minSeq pats childs =>
        have hrec : ∀ c ∈ childs, ∀ ci' pos',
            (nodeMatchF test regexTest f c comps ci' pos' url base).isSome =
              true := by
          intro c hc ci' pos'
          refine ih c (hwf.childWf hc) ?_ ci' pos'
          have h1 : height c ≤ heightList childs :=
            height_child_le (by simpa [PrefixTreeNode.children] using hc)
          rw [height] at hh
          omega
        cases kind with
        | root =>
            simp only [nodeMatchF]
            exact tryPatternsAndChildren_complete hrec
        | fixed v m =>
            simp only [nodeMatchF]
            split
            · rfl
            · split
              · have hv : v ≠ [] := hwf.value v m rfl
                rw [fixedGreedy, if_neg hv]
                repeat' (first
                  | (exact tryPatternsAndChildren_complete hrec)
                  | rfl
                  | (rename_i heq; exact Option.noConfusion heq)
                  | split)
              · split
                · exact tryPatternsAndChildren_complete hrec
                · split
                  · exact tryPatternsAndChildren_complete hrec
                  · rfl
        | wildcard m px sx =>
            simp only [nodeMatchF]
            repeat' (first
              | (exact tryPatternsAndChildren_complete hrec)
              | (exact tryPositionsGo_complete hrec _)
              | (refine attemptThen_complete ?_ ?_)
              | rfl
              | split)
        | fullWildcard m =>
            simp only [nodeMatchF]
            repeat' (first
              | (exact tryPatternsAndChildren_complete hrec)
              | (exact tryPositionsGo_complete hrec _)
              | (refine attemptThen_complete ?_ ?_)
              | rfl
              | split)
        | regex r =>
            simp only [nodeMatchF]
            repeat' (first
              | (exact tryPatternsAndChildren_complete hrec)
              | (exact tryPositionsGo_complete hrec _)
              | (refine attemptThen_complete ?_ ?_)
              | rfl
              | split)

theorem fixedNonempty_newNode {T : Type} (part : Part)
    (hp : part.type = PartType.fixed → part.value ≠ []) :
    FixedNonempty (newNode part : PrefixTreeNode T) := by
  refine FixedNonempty.mk ?_ ?_
  · intro v m hk
    unfold newNode at hk
    cases ht : part.type <;> rw [ht] at hk <;>
      simp [PrefixTreeNode.kind] at hk
    rw [← hk.1]
    exact hp ht
  · intro c hc
    unfold newNode at hc
    cases ht : part.type <;> rw [ht] at hc <;>
      simp [PrefixTreeNode.children] at hc

theorem fixedNonempty_addPatternToTree {T : Type} :
    ∀ (parts : List Part) (node : PrefixTreeNode T) (item : Item T),
      (∀ p ∈ parts, p.type = PartType.fixed → p.value ≠ []) →
      FixedNonempty node → FixedNonempty (addPatternToTree node parts item)
  | [], node, item, _, hn => by
      rw [addPatternToTree_nil]
      refine FixedNonempty.mk ?_ ?_
      · intro v m hk
        exact hn.value v m hk
      · intro c hc
        simp only [PrefixTreeNode.children] at hc
        exact hn.childWf hc
  | part :: rest, node, item, hps, hn => by
      rw [addPatternToTree_cons]
      refine FixedNonempty.mk ?_ ?_
      · intro v m hk
        exact hn.value v m hk
      · intro c hc
        simp only [PrefixTreeNode.children] at hc
        have hrest : ∀ p ∈ rest, p.type = PartType.fixed → p.value ≠ [] :=
          fun p hp => hps p (List.mem_cons_of_mem part hp)
        rcases mem_insertIntoChildren hc with h | ⟨c', hc', h⟩ | h
        · rw [h]
          exact fixedNonempty_addPatternToTree rest (newNode part) item hrest
            (fixedNonempty_newNode part
              (hps part (List.mem_cons_self part rest)))
        · rw [h]
          exact fixedNonempty_addPatternToTree rest c' item hrest (hn.childWf hc')
        · exact hn.childWf h

theorem fixedNonempty_buildState {T : Type} (regs : List (List Part × Nat × T))
    (hreg : ∀ r ∈ regs, ∀ p ∈ r.1, p.type = PartType.fixed → p.value ≠ []) :
    FixedNonempty (buildState regs).root := by
  suffices h : ∀ (st : ListState T), FixedNonempty st.root →
      (∀ r ∈ regs, ∀ p ∈ r.1, p.type = PartType.fixed → p.value ≠ []) →
      FixedNonempty (regs.foldl
        (fun st r => (addPattern st (.ok r.1) r.2.1 r.2.2).2) st).root by
    refine h (emptyState T) ?_ hreg
    refine FixedNonempty.mk ?_ ?_
    · intro v m hk; cases hk
    · intro c hc; cases hc
  clear hreg
  induction regs with
  | nil => intro st h _; exact h
  | cons r rest ih =>
      intro st h hr
      exact ih _ (fixedNonempty_addPatternToTree r.1 st.root
          ⟨st.sequenceCounter, r.2.1, r.2.2⟩
          (hr r (List.mem_cons_self r rest)) h)
        (fun r' hr' => hr r' (List.mem_cons_of_mem r hr'))

/-- C7: `match` terminates on every URL input over every index built from
registrations whose Fixed parts carry non-empty literals (which is every
parser output): the recursive walk, with its statically-determined fuel
(the tree height - one unit per level, all backtracking loops being finite
position lists), always completes with an answer.  This covers nested full
wildcards such as the tree for a pattern `*/*`. -/
theorem c7_match_terminates {T : Type}
    (test : Nat → String → Option String → Bool)
    (regexTest : List Char → List Char → Bool)
    (regs : List (List Part × Nat × T))
    (hreg : ∀ r ∈ regs, ∀ p ∈ r.1, p.type = PartType.fixed → p.value ≠ [])
    (comps : List URLComponent) (ci pos : Nat) (url : String)
    (base : Option String) :
    (nodeMatchF test regexTest (height (buildState regs).root)
      (buildState regs).root comps ci pos url base).isSome = true :=
  nodeMatchF_complete (height (buildState regs).root) (buildState regs).root
    (fixedNonempty_buildState regs hreg) (Nat.le_refl _) ci pos

/-- Witness for C7: a concrete registration list and URL components. -/
theorem c7_match_terminates_witness :
    (nodeMatchF allTrueTest noRegexTest
      (height (buildState [(exPartsA, 0, "A")]).root)
      (buildState [(exPartsA, 0, "A")]).root (buildComponents exUrl) 0 0
      "https://x/a?q" none).isSome = true :=
  c7_match_terminates allTrueTest noRegexTest [(exPartsA, 0, "A")]
    (by decide) (buildComponents exUrl) 0 0 "https://x/a?q" none

end UrlPatternList
